import Mathlib

/-!
Verification development for the cachetf provider-mirror proxy.

The definitions below are shallow embeddings of the Go sources:
`internal/handler/registry.go`, `internal/handler/cache.go`,
`internal/routes/routes.go`, `internal/storage/local.go`, the S3 store,
and the metrics package.  Machine integers are modelled as `Nat`/`Int`
with explicit reduction modulo `2^32` where the source wraps, fallible
operations return `Option`/`Except`, and the filesystem / S3 bucket are
explicit association lists threaded through each operation.
-/

namespace Cachetf

/-! ## SHA-256 (the Go `crypto/sha256` as consumed by `downloadFile`)

`downloadFile` hashes the downloaded body with SHA-256 and compares the
lowercase hex digest with the upstream-reported `shasum`.  The hash is
implemented here from FIPS 180-4 over byte lists, with 32-bit words as
`Nat` reduced modulo `2^32`. -/

def w32 : Nat := 4294967296

def rotr32 (x n : Nat) : Nat :=
  ((x >>> n) ||| (x <<< (32 - n))) % w32

def shaCh (x y z : Nat) : Nat := ((x &&& y) ^^^ ((x ^^^ (w32 - 1)) &&& z)) % w32

def shaMaj (x y z : Nat) : Nat := ((x &&& y) ^^^ (x &&& z) ^^^ (y &&& z)) % w32

def shaS0 (x : Nat) : Nat := (rotr32 x 2 ^^^ rotr32 x 13 ^^^ rotr32 x 22) % w32

def shaS1 (x : Nat) : Nat := (rotr32 x 6 ^^^ rotr32 x 11 ^^^ rotr32 x 25) % w32

def shas0 (x : Nat) : Nat := (rotr32 x 7 ^^^ rotr32 x 18 ^^^ (x >>> 3)) % w32

def shas1 (x : Nat) : Nat := (rotr32 x 17 ^^^ rotr32 x 19 ^^^ (x >>> 10)) % w32

def shaK : List Nat :=
  [1116352408, 1899447441, 3049323471, 3921009573, 961987163,
   1508970993, 2453635748, 2870763221, 3624381080, 310598401,
   607225278, 1426881987, 1925078388, 2162078206, 2614888103,
   3248222580, 3835390401, 4022224774, 264347078, 604807628,
   770255983, 1249150122, 1555081692, 1996064986, 2554220882,
   2821834349, 2952996808, 3210313671, 3336571891, 3584528711,
   113926993, 338241895, 666307205, 773529912, 1294757372,
   1396182291, 1695183700, 1986661051, 2177026350, 2456956037,
   2730485921, 2820302411, 3259730800, 3345764771, 3516065817,
   3600352804, 4094571909, 275423344, 430227734, 506948616,
   659060556, 883997877, 958139571, 1322822218, 1537002063,
   1747873779, 1955562222, 2024104815, 2227730452, 2361852424,
   2428436474, 2756734187, 3204031479, 3329325298]

def shaH0 : List Nat :=
  [1779033703, 3144134277, 1013904242, 2773480762,
   1359893119, 2600822924, 528734635, 1541459225]

def bytesToWords : List Nat → List Nat
  | b0 :: b1 :: b2 :: b3 :: rest =>
      (((b0 * 256 + b1) * 256 + b2) * 256 + b3) :: bytesToWords rest
  | _ => []

def padBytes (msg : List Nat) : List Nat :=
  let len := msg.length
  let zeros := (120 - ((len + 1) % 64)) % 64
  let bitLen := len * 8
  msg ++ [128] ++ List.replicate zeros 0 ++
    ((List.range 8).map fun i => (bitLen >>> (8 * (7 - i))) % 256)

def blocks64Aux : Nat → List Nat → List (List Nat)
  | 0, _ => []
  | _, [] => []
  | fuel + 1, a :: rest => ((a :: rest).take 64) :: blocks64Aux fuel ((a :: rest).drop 64)

/-- Split a byte list into 512-bit (64-byte) blocks.  The fuel `l.length`
dominates the block count, so the recursion is structural and computable
by the kernel. -/
def blocks64 (l : List Nat) : List (List Nat) :=
  blocks64Aux l.length l

def shaSchedule (ws : List Nat) : List Nat :=
  (List.range 48).foldl
    (fun acc t =>
      acc ++ [(shas1 (acc.getD (t + 14) 0) + acc.getD (t + 9) 0 +
               shas0 (acc.getD (t + 1) 0) + acc.getD t 0) % w32])
    ws

def shaRound (st : Nat × Nat × Nat × Nat × Nat × Nat × Nat × Nat) (wk : Nat × Nat) :
    Nat × Nat × Nat × Nat × Nat × Nat × Nat × Nat :=
  match st, wk with
  | (a, b, c, d, e, f, g, h), (w, k) =>
    let t1 := (h + shaS1 e + shaCh e f g + k + w) % w32
    let t2 := (shaS0 a + shaMaj a b c) % w32
    ((t1 + t2) % w32, a, b, c, (d + t1) % w32, e, f, g)

def shaCompress (hs : List Nat) (block : List Nat) : List Nat :=
  let ws := shaSchedule (bytesToWords block)
  let st0 := (hs.getD 0 0, hs.getD 1 0, hs.getD 2 0, hs.getD 3 0,
              hs.getD 4 0, hs.getD 5 0, hs.getD 6 0, hs.getD 7 0)
  match (ws.zip shaK).foldl shaRound st0 with
  | (a, b, c, d, e, f, g, h) =>
    [(hs.getD 0 0 + a) % w32, (hs.getD 1 0 + b) % w32, (hs.getD 2 0 + c) % w32,
     (hs.getD 3 0 + d) % w32, (hs.getD 4 0 + e) % w32, (hs.getD 5 0 + f) % w32,
     (hs.getD 6 0 + g) % w32, (hs.getD 7 0 + h) % w32]

/-- The lowercase hex digit for a nibble: `0`-`9` then `a`-`f`. -/
def hexDigitChar (n : Nat) : Char :=
  if n < 10 then Char.ofNat (48 + n) else Char.ofNat (87 + n)

def wordHex (w : Nat) : List Char :=
  (List.range 8).map fun i => hexDigitChar ((w >>> (4 * (7 - i))) &&& 15)

/-- Lowercase hex SHA-256 digest of a byte list, as produced by
`hex.EncodeToString(hasher.Sum(nil))` in `downloadFile`. -/
def sha256hex (msg : List Nat) : String :=
  String.mk (List.flatten (((blocks64 (padBytes msg)).foldl shaCompress shaH0).map wordHex))

/-- Sanity anchor: the FIPS 180-4 test vector for the message "abc". -/
theorem sha256hex_abc :
    sha256hex [97, 98, 99] =
      "ba7816bf8f01cfea414140de5dae2223b00361a396177a9cb410ff61f20015ad" := by
  decide

/-! ## String helpers

Kernel-computable counterparts of the Go `strings` functions used by the
sources, implemented over the character lists underlying `String`. -/

/-- `strings.HasPrefix`. -/
def strStartsWith (s pre : String) : Bool := pre.toList.isPrefixOf s.toList

/-- `strings.HasSuffix`. -/
def strEndsWith (s suf : String) : Bool := suf.toList.reverse.isPrefixOf s.toList.reverse

def splitOnCharAux (sep : Char) : List Char → List Char → List String
  | [], acc => [String.mk acc.reverse]
  | c :: rest, acc =>
      if c = sep then String.mk acc.reverse :: splitOnCharAux sep rest []
      else splitOnCharAux sep rest (c :: acc)

/-- `strings.Split(s, sep)` for a one-character separator: the list of
chunks between separators, keeping empty chunks. -/
def splitOnChar (sep : Char) (s : String) : List String :=
  splitOnCharAux sep s.toList []

def joinSlashChars : List String → List Char
  | [] => []
  | [x] => x.toList
  | x :: y :: rest => x.toList ++ '/' :: joinSlashChars (y :: rest)

/-- `strings.Join(parts, "/")`. -/
def joinSlash (parts : List String) : String :=
  String.mk (joinSlashChars parts)

/-! ## Identifier validation (registry.go lines 195-257) -/

def alnumChar (c : Char) : Bool := c.isAlpha || c.isDigit

def lowerAlnumChar (c : Char) : Bool := c.isLower || c.isDigit

/-- `isValidOS`: membership in the closed allow-list of operating systems. -/
def isValidOS (osName : String) : Bool :=
  osName == "darwin" || osName == "freebsd" || osName == "linux" ||
  osName == "openbsd" || osName == "solaris" || osName == "windows"

/-- `isValidRegistry`: non-empty and free of space, slash and backslash
(`!strings.ContainsAny(registry, " /\\")`).  Nothing more is checked. -/
def isValidRegistry (registry : String) : Bool :=
  registry != "" &&
  !(registry.toList.contains ' ' || registry.toList.contains '/' ||
    registry.toList.contains '\\')

/-- `isValidNamespace`: the regular expression
`[a-zA-Z0-9]([a-zA-Z0-9-]*[a-zA-Z0-9])?` anchored at both ends:
non-empty, first and last characters alphanumeric, interior characters
alphanumeric or hyphen. -/
def isValidNamespace (ns : String) : Bool :=
  match ns.toList with
  | [] => false
  | [c] => alnumChar c
  | c :: rest =>
      alnumChar c &&
      rest.dropLast.all (fun x => alnumChar x || x == '-') &&
      alnumChar (rest.getLastD c)

/-- `isValidProvider`: the regular expression `[a-z0-9-]+` anchored, plus
rejection of a leading or trailing hyphen. -/
def isValidProvider (provider : String) : Bool :=
  provider != "" &&
  provider.toList.all (fun c => lowerAlnumChar c || c == '-') &&
  !strStartsWith provider "-" && !strEndsWith provider "-"

def verSuffixChar (c : Char) : Bool := alnumChar c || c == '.' || c == '+' || c == '-'

/-- `isValidVersion`: the anchored regular expression
`\d+\.\d+\.\d+(-[a-zA-Z0-9.+-]+)?(\+[a-zA-Z0-9.+-]+)?`.  Because both
optional groups admit the same character class (which itself contains
`+`, `-` and `.`), the accepted language is three digit runs joined by
dots, optionally followed by `-` or `+` and a non-empty run over that
class. -/
def isValidVersion (version : String) : Bool :=
  match version.toList.span Char.isDigit with
  | ([], _) => false
  | (_ :: _, '.' :: r2) =>
    match r2.span Char.isDigit with
    | ([], _) => false
    | (_ :: _, '.' :: r4) =>
      match r4.span Char.isDigit with
      | ([], _) => false
      | (_ :: _, []) => true
      | (_ :: _, c :: w) => (c == '-' || c == '+') && !w.isEmpty && w.all verSuffixChar
    | (_, _) => false
  | (_, _) => false

/-- `isValidArch`: membership in the closed allow-list of architectures. -/
def isValidArch (arch : String) : Bool :=
  arch == "386" || arch == "amd64" || arch == "arm" ||
  arch == "arm64" || arch == "ppc64le"

/-- `getCacheKey` (registry.go lines 122-129):
`registry/namespace/provider/version/terraform-provider-<provider>_<version>_<os>_<arch>.zip`. -/
def getCacheKey (registry ns provider version platform arch : String) : String :=
  registry ++ "/" ++ ns ++ "/" ++ provider ++ "/" ++ version ++ "/" ++
    "terraform-provider-" ++ provider ++ "_" ++ version ++ "_" ++ platform ++ "_" ++
    arch ++ ".zip"

/-! ## Paths and the local filesystem model (internal/storage/local.go)

Paths are lists of segments.  The filesystem is an association list from
absolute file paths to byte contents; directories are implied by the
files below them (the store only ever creates directories as ancestors
of files it writes, and `os.RemoveAll` removes whole trees). -/

abbrev Path := List String

/-- One step of Go's lexical `filepath.Clean` on an absolute path:
empty and `.` segments vanish, `..` removes the previous segment (and is
dropped at the root). -/
def cleanStep (acc : List String) (seg : String) : List String :=
  if seg = "" then acc
  else if seg = "." then acc
  else if seg = ".." then acc.dropLast
  else acc ++ [seg]

/-- `filepath.Clean` on the segments of an absolute path. -/
def cleanAbs (segs : List String) : Path :=
  segs.foldl cleanStep []

/-- `filepath.Join(baseDir, key)` with `baseDir` already clean and
absolute: concatenate the segments and clean lexically. -/
def resolvePath (root : Path) (key : String) : Path :=
  cleanAbs (root ++ splitOnChar '/' key)

/-- A path segment that `filepath.Clean` leaves alone. -/
def normalSeg (s : String) : Bool := s != "" && s != "." && s != ".."

def fileAt (fs : List (Path × List Nat)) (p : Path) : Option (List Nat) :=
  match fs.find? (fun e => e.1 == p) with
  | some e => some e.2
  | none => none

/-- A directory exists at `p` when some file lives strictly below it. -/
def isDirAt (fs : List (Path × List Nat)) (p : Path) : Bool :=
  fs.any (fun e => p.isPrefixOf e.1 && p != e.1)

/-- `os.Stat` succeeds: a file or a directory is present at `p`. -/
def statExists (fs : List (Path × List Nat)) (p : Path) : Bool :=
  (fileAt fs p).isSome || isDirAt fs p

/-! ## Metrics (the `metrics` package) -/

structure Metrics where
  hits : Nat
  misses : Nat
  deletions : Nat
  sizeBytes : Int
  deriving DecidableEq, Repr

def Metrics.init : Metrics := ⟨0, 0, 0, 0⟩

/-- `RecordHit`: increments `cache_hits_total`. -/
def recordHit (m : Metrics) : Metrics := { m with hits := m.hits + 1 }

/-- `RecordMiss`: increments `cache_misses_total`. -/
def recordMiss (m : Metrics) : Metrics := { m with misses := m.misses + 1 }

/-- `RecordDeletion(count)`: adds `count` to `cache_deletions_total`. -/
def recordDeletion (m : Metrics) (count : Nat) : Metrics :=
  { m with deletions := m.deletions + count }

/-- `UpdateSize(size)`: the Go body is `CacheSizeBytes.Set(float64(size))`,
so the gauge is SET to the argument, not shifted by it. -/
def updateSize (m : Metrics) (size : Int) : Metrics :=
  { m with sizeBytes := size }

/-! ## The local store (internal/storage/local.go)

I/O faults other than `ENOENT` are not modelled (no disk errors), and
the per-key mutex is invisible in this sequential model. -/

structure LocalStorage where
  baseDir : Path
  files : List (Path × List Nat)
  metrics : Metrics
  deriving DecidableEq, Repr

/-- `Exists`: a pure stat on `filepath.Join(baseDir, key)`. -/
def localExists (s : LocalStorage) (key : String) : Bool :=
  statExists s.files (resolvePath s.baseDir key)

/-- `Get`: stat; on absence record a miss and fail with `ErrNotExist`;
otherwise open, record a hit and set the size gauge from the stat.  When
the resolved path is a directory `os.Open` still succeeds; the model
returns empty content there (handlers never read directory keys). -/
def localGet (s : LocalStorage) (key : String) : Option (List Nat) × LocalStorage :=
  let p := resolvePath s.baseDir key
  if statExists s.files p then
    let content := (fileAt s.files p).getD []
    (some content,
     { s with metrics := updateSize (recordHit s.metrics) (Int.ofNat content.length) })
  else
    (none, { s with metrics := recordMiss s.metrics })

/-- `Put`: under the per-key mutex, if `os.Stat` succeeds the write is
skipped; otherwise ancestors are created, the bytes are written and the
size gauge is set to the written length. -/
def localPut (s : LocalStorage) (key : String) (content : List Nat) : LocalStorage :=
  let p := resolvePath s.baseDir key
  if statExists s.files p then s
  else
    { s with
        files := s.files ++ [(p, content)],
        metrics := updateSize s.metrics (Int.ofNat content.length) }

/-- `DeleteByPrefix` of the local store: stat `root/pfx`; a missing path
yields 0; a plain file is removed alone (count 1, size gauge set to the
negated size, and NO `RecordDeletion` call); a directory is walked to
tally files and bytes, then removed as a tree, with the size gauge set
to the negated total and `RecordDeletion(count)` recorded. -/
def deleteByPrefixLocal (s : LocalStorage) (pfx : String) : Nat × LocalStorage :=
  let p := resolvePath s.baseDir pfx
  match fileAt s.files p with
  | some content =>
      (1, { s with
              files := s.files.filter (fun e => e.1 != p),
              metrics := updateSize s.metrics (-(Int.ofNat content.length)) })
  | none =>
      if isDirAt s.files p then
        let removed := s.files.filter (fun e => p.isPrefixOf e.1 && p != e.1)
        let kept := s.files.filter (fun e => !(p.isPrefixOf e.1 && p != e.1))
        (removed.length,
         { s with
             files := kept,
             metrics :=
               recordDeletion
                 (updateSize s.metrics (-(Int.ofNat (removed.map (fun e => e.2.length)).sum)))
                 removed.length })
      else
        (0, s)

/-! ## The S3 store (`S3Storage.DeleteByPrefix`)

`ListObjectsV2` with a `Prefix` returns every object whose key begins
with that raw string (no segment awareness); the pagination loop and the
batches of at most 1000 keys passed to `DeleteObjects` accumulate to the
same set, so they are collapsed here.  Object sizes are `Nat`s. -/

structure S3Storage where
  bucket : List (String × Nat)
  metrics : Metrics
  deriving DecidableEq, Repr

/-- `DeleteByPrefix` of the S3 store: list keys with the raw string
prefix, delete them all, set the size gauge to the negated total when
positive, record the deletion count. -/
def deleteByPrefixS3 (s : S3Storage) (pfx : String) : Nat × S3Storage :=
  let objs := s.bucket.filter (fun e => strStartsWith e.1 pfx)
  if objs.isEmpty then (0, s)
  else
    let total : Nat := (objs.map (fun e => e.2)).sum
    (objs.length,
     { bucket := s.bucket.filter (fun e => !strStartsWith e.1 pfx),
       metrics :=
         recordDeletion
           (if 0 < total then updateSize s.metrics (-(Int.ofNat total)) else s.metrics)
           objs.length })

/-! ## Upstream URLs and handler outcome types (internal/handler/registry.go)

The handlers are modelled up to their observable effects: validation
failures, upstream requests, store interactions and HTTP responses.
An outcome constructor other than `badRequest` is the first network or
store effect the handler performs. -/

def registryBaseURL (registry : String) : String :=
  if strStartsWith registry "http" then registry else "https://" ++ registry

structure HttpResponse where
  status : Nat
  errorField : Option String
  deriving DecidableEq, Repr

inductive IndexOutcome where
  | badRequest (msg : String)
  | upstream (url : String)
  deriving DecidableEq, Repr

/-- `GetProviderIndex` up to its first effect: parameters are validated,
and only then is the upstream versions URL requested. -/
def getProviderIndexModel (registry ns provider : String) : IndexOutcome :=
  if !(isValidRegistry registry && isValidNamespace ns && isValidProvider provider) then
    .badRequest "invalid parameters"
  else
    .upstream (registryBaseURL registry ++ "/v1/providers/" ++ ns ++ "/" ++ provider ++ "/versions")

structure VersionEntry where
  version : String
  platforms : List (String × String)
  deriving DecidableEq, Repr

inductive VersionOutcome where
  | badRequest (msg : String)
  | notFound (msg : String)
  | ok (archives : List (String × String))
  deriving DecidableEq, Repr

/-- Assignment into the Go map `response.Archives` (replace on repeated key). -/
def insertArchive (m : List (String × String)) (k v : String) : List (String × String) :=
  if m.any (fun e => e.1 == k) then m.map (fun e => if e.1 == k then (k, v) else e)
  else m ++ [(k, v)]

def lookupArchive (m : List (String × String)) (k : String) : Option String :=
  match m.find? (fun e => e.1 == k) with
  | some e => some e.2
  | none => none

def archiveFilename (provider version osName arch : String) : String :=
  "terraform-provider-" ++ provider ++ "_" ++ version ++ "_" ++ osName ++ "_" ++ arch ++ ".zip"

/-- The loop over `foundVersion.Platforms` in `GetProviderVersion`. -/
def buildArchives (provider version : String) (platforms : List (String × String)) :
    List (String × String) :=
  platforms.foldl
    (fun m pl => insertArchive m (pl.1 ++ "_" ++ pl.2) (archiveFilename provider version pl.1 pl.2))
    []

/-- `GetProviderVersion`, given the parsed upstream version list.  The
code validates all four identifiers before contacting the upstream; a
`badRequest` outcome therefore never depends on `upstream`.  After a
successful upstream call the entry for `version` is looked up
(`find` on the slice, first match); absence is a 404, presence yields
the archives map.  (The fall-through branch for `version == "index.json"`
is unreachable here because such a string fails `isValidVersion`.) -/
def getProviderVersionModel (registry ns provider version : String)
    (upstream : List VersionEntry) : VersionOutcome :=
  if version = "" then .badRequest "invalid version parameter"
  else if !(isValidRegistry registry && isValidNamespace ns && isValidProvider provider &&
            isValidVersion version) then
    .badRequest "invalid parameters"
  else
    match upstream.find? (fun e => e.version == version) with
    | none => .notFound "version not found"
    | some e => .ok (buildArchives provider version e.platforms)

inductive DownloadOutcome where
  | badRequest (msg : String)
  | hit (key : String)
  | fetchInfo (key url : String)
  deriving DecidableEq, Repr

/-- `DownloadProvider` up to its first network effect: validate all six
identifiers, derive the cache key, consult the store; a hit streams from
the cache, a miss proceeds to the upstream download-info request.  Note
that nothing here compares the filename-captured provider name with the
`provider` path segment — the handler never sees that capture. -/
def downloadProviderModel (registry ns provider version osName arch : String)
    (cached : List String) : DownloadOutcome :=
  if !(isValidRegistry registry && isValidNamespace ns && isValidProvider provider &&
       isValidVersion version && isValidOS osName && isValidArch arch) then
    .badRequest "invalid parameters"
  else
    let key := getCacheKey registry ns provider version osName arch
    if cached.contains key then .hit key
    else
      .fetchInfo key
        (registryBaseURL registry ++ "/v1/providers/" ++ ns ++ "/" ++ provider ++ "/" ++
         version ++ "/download/" ++ osName ++ "/" ++ arch)

/-- `downloadFile` (registry.go lines 132-192) applied to the upstream
reply: a non-200 status aborts; the body is streamed through a SHA-256
hasher; when an expected digest is present a mismatch aborts before any
store write; only on a match is the body `Put` under `key`. -/
def downloadFileModel (s : LocalStorage) (key : String) (status : Nat)
    (body : List Nat) (expectedSHA256 : String) : Except String Unit × LocalStorage :=
  if status ≠ 200 then (.error "unexpected status code", s)
  else if expectedSHA256 != "" && sha256hex body != expectedSHA256 then
    (.error "checksum verification failed", s)
  else
    (.ok (), localPut s key body)

/-- The handler's reaction to `downloadFile`'s result (lines 672-680):
any error becomes HTTP 500 with the fixed `error` field; success
proceeds to stream the freshly cached file (200). -/
def respondAfterDownload (r : Except String Unit) : HttpResponse :=
  match r with
  | .error _ =>
      { status := 500, errorField := some "failed to download or verify provider binary" }
  | .ok _ => { status := 200, errorField := none }

/-- The complete binary-GET flow of `DownloadProvider` over the local
store, with the upstream supplying `body` and reporting `shasum`:
validate; `Get` (records hit or miss); on a miss check the download
info, run `downloadFile`, then `Get` again and stream. -/
def binaryGetModel (s : LocalStorage) (registry ns provider version osName arch : String)
    (body : List Nat) (shasum : String) : HttpResponse × LocalStorage :=
  if !(isValidRegistry registry && isValidNamespace ns && isValidProvider provider &&
       isValidVersion version && isValidOS osName && isValidArch arch) then
    ({ status := 400, errorField := some "invalid parameters" }, s)
  else
    let key := getCacheKey registry ns provider version osName arch
    match localGet s key with
    | (some _, s1) => ({ status := 200, errorField := none }, s1)
    | (none, s1) =>
        if shasum = "" then
          ({ status := 500, errorField := some "invalid download information" }, s1)
        else
          match downloadFileModel s1 key 200 body shasum with
          | (.error msg, s2) => (respondAfterDownload (.error msg), s2)
          | (.ok _, s2) =>
              let (_, s3) := localGet s2 key
              ({ status := 200, errorField := none }, s3)

/-! ## Route dispatch for `GET <P>/R/N/V/:fileOrVersion` (routes.go) -/

def wordChar (c : Char) : Bool := alnumChar c || c == '_'

def wordDashChar (c : Char) : Bool := wordChar c || c == '-'

/-- `strings.TrimSuffix(fileOrVersion, ".json")`. -/
def trimSuffixJson (s : String) : String :=
  if strEndsWith s ".json" then String.mk (s.toList.take (s.toList.length - 5)) else s

def routeVersionTailOk (l : List Char) : Bool :=
  l.isEmpty || l == ['.', 'j', 's', 'o', 'n'] ||
  (match l with
   | '-' :: rest =>
       let (w, t) := rest.span wordDashChar
       !w.isEmpty && (t.isEmpty || t == ['.', 'j', 's', 'o', 'n'])
   | _ => false)

/-- The anchored route expression `(\d+\.\d+\.\d+)(?:-[\w-]+)?(?:\.json)?`
as a recognizer.  The character classes make the match deterministic:
digit runs are maximal, the optional pre-release run is maximal over
`[\w-]`, and what remains must be empty or the literal `.json`. -/
def matchRouteVersion (s : String) : Bool :=
  match s.toList.span Char.isDigit with
  | ([], _) => false
  | (_ :: _, '.' :: r2) =>
    match r2.span Char.isDigit with
    | ([], _) => false
    | (_ :: _, '.' :: r4) =>
      match r4.span Char.isDigit with
      | ([], _) => false
      | (_ :: _, r5) => routeVersionTailOk r5
    | (_, _) => false
  | (_, _) => false

/-- The `_<os>_<arch>.zip` tail of the archive expression: a literal
underscore, a maximal non-underscore run (`[^_]+`), an underscore, a
maximal non-dot run (`[^.]+`), and the literal `.zip` at the end. -/
def parseOsArch (l : List Char) : Option (String × String) :=
  match l with
  | '_' :: rest =>
    let (osC, r1) := rest.span (fun c => c != '_')
    if osC.isEmpty then none
    else
      match r1 with
      | '_' :: r2 =>
        let (archC, r3) := r2.span (fun c => c != '.')
        if archC.isEmpty then none
        else if r3 = ['.', 'z', 'i', 'p'] then some (String.mk osC, String.mk archC)
        else none
      | _ => none
  | _ => none

/-- Greedy backtracking for the optional `(?:-[\w-]+)?` group: the run
`runC` is the maximal `[\w-]` stretch after the hyphen, and pre-release
lengths are tried longest-first, as a backtracking engine would. -/
def tryPre (runC tail : List Char) : Nat → Option (Nat × String × String)
  | 0 => none
  | k + 1 =>
    match parseOsArch (runC.drop (k + 1) ++ tail) with
    | some (o, a) => some (k + 1, o, a)
    | none => tryPre runC tail k

/-- The archive filename expression of routes.go,
`^terraform-provider-([^_]+?)_(\d+\.\d+\.\d+(?:-[\w-]+)?)_([^_]+)_([^.]+)\.zip$`,
as a capture-producing parse.  The non-greedy first group ranges over
non-underscore characters followed by a literal underscore, hence it is
exactly the run up to the first underscore. -/
def parseArchiveFilename (file : String) : Option (String × String × String × String) :=
  let l := file.toList
  let pfxChars := "terraform-provider-".toList
  if pfxChars.isPrefixOf l then
    let r0 := l.drop pfxChars.length
    let (provC, r1) := r0.span (fun c => c != '_')
    if provC.isEmpty then none
    else
      match r1 with
      | '_' :: r2 =>
        let (d1, s1) := r2.span Char.isDigit
        if d1.isEmpty then none
        else
          match s1 with
          | '.' :: s2 =>
            let (d2, s3) := s2.span Char.isDigit
            if d2.isEmpty then none
            else
              match s3 with
              | '.' :: s4 =>
                let (d3, s5) := s4.span Char.isDigit
                if d3.isEmpty then none
                else
                  let digits := d1 ++ ['.'] ++ d2 ++ ['.'] ++ d3
                  match s5 with
                  | '-' :: s6 =>
                    let (runC, tl) := s6.span wordDashChar
                    (match tryPre runC tl runC.length with
                     | some (k, o, a) =>
                         some (String.mk provC, String.mk (digits ++ ['-'] ++ runC.take k), o, a)
                     | none =>
                         match parseOsArch s5 with
                         | some (o, a) => some (String.mk provC, String.mk digits, o, a)
                         | none => none)
                  | _ =>
                    match parseOsArch s5 with
                    | some (o, a) => some (String.mk provC, String.mk digits, o, a)
                    | none => none
              | _ => none
          | _ => none
      | _ => none
  else none

inductive RouteOutcome where
  | toVersionHandler (version : String) (out : VersionOutcome)
  | binary (out : DownloadOutcome)
  | badRequestFile (msg : String)
  | badRequestUnsupported
  deriving DecidableEq, Repr

/-- The `GET /:fileOrVersion` dispatcher of routes.go: first try the
version shape (after trimming one `.json` suffix), then the `.zip`
shape.  On an archive match the captures `matches[2..4]` become the
version, os and arch passed to `DownloadProvider`; the first capture
(the provider name embedded in the filename) is discarded, and no
comparison with the `provider` path segment takes place. -/
def routeFileOrVersionModel (registry ns provider fileOrVersion : String)
    (upstream : List VersionEntry) (cached : List String) : RouteOutcome :=
  let version := trimSuffixJson fileOrVersion
  if matchRouteVersion version then
    .toVersionHandler version (getProviderVersionModel registry ns provider version upstream)
  else if strEndsWith fileOrVersion ".zip" then
    match parseArchiveFilename fileOrVersion with
    | none => .badRequestFile "invalid file format"
    | some (_, v, o, a) => .binary (downloadProviderModel registry ns provider v o a cached)
  else .badRequestUnsupported

/-! ## The DELETE surface (routes.go lines 40-46, cache.go DeleteCache) -/

/-- The nested parameter collection of `DeleteCache`: later path
segments are appended only while every earlier one is present. -/
def deleteCacheParams (registry ns provider version file : String) : List String :=
  [registry] ++
  (if ns = "" then [] else
    [ns] ++
    (if provider = "" then [] else
      [provider] ++
      (if version = "" then [] else
        [version] ++ (if file = "" then [] else [file]))))

/-- `strings.Join(params, "/")`. -/
def deleteCachePrefixString (registry ns provider version file : String) : String :=
  joinSlash (deleteCacheParams registry ns provider version file)

/-- `DeleteCache` against the local store: build the prefix from the
present path segments and call `DeleteByPrefix`; the success response
carries the returned count in its `deleted` field. -/
def deleteCacheModel (s : LocalStorage) (registry ns provider version file : String) :
    Nat × LocalStorage :=
  deleteByPrefixLocal s (deleteCachePrefixString registry ns provider version file)

/-! ## Interleaving model of the install path (claim C1)

Each worker executes the miss path of `DownloadProvider` for one shared
key: `Get` (the optimistic check), the upstream `GetDownloadInfo` call,
then `downloadFile`, which acquires the handler-wide `h.mu` lock and —
without re-checking the store — downloads the archive and `Put`s it
(the local store's `Put` is a no-op when the file already exists).
A schedule is a list of worker indices; a worker whose lock acquisition
finds the lock held simply does not advance (it is blocked). -/

inductive EnginePc where
  | check | fetchInfo | lock | download | put | done
  deriving DecidableEq, Repr

structure EngineState where
  installed : Bool
  lockHeld : Bool
  pcs : List EnginePc
  infoCalls : Nat
  downloads : Nat
  deriving DecidableEq, Repr

def engineStep (st : EngineState) (i : Nat) : EngineState :=
  match st.pcs.getD i .done with
  | .check =>
      if st.installed then { st with pcs := st.pcs.set i .done }
      else { st with pcs := st.pcs.set i .fetchInfo }
  | .fetchInfo =>
      { st with pcs := st.pcs.set i .lock, infoCalls := st.infoCalls + 1 }
  | .lock =>
      if st.lockHeld then st
      else { st with lockHeld := true, pcs := st.pcs.set i .download }
  | .download =>
      { st with downloads := st.downloads + 1, pcs := st.pcs.set i .put }
  | .put =>
      { st with installed := true, lockHeld := false, pcs := st.pcs.set i .done }
  | .done => st

def engineRun (st : EngineState) (sched : List Nat) : EngineState :=
  sched.foldl engineStep st

def engineInit (n : Nat) : EngineState :=
  { installed := false, lockHeld := false, pcs := List.replicate n .check,
    infoCalls := 0, downloads := 0 }

/-! ## Auxiliary predicates for the theorems -/

/-- Modelled from the spec: a DNS label — "alphanumerics plus interior
hyphens" (§3). -/
def specDnsLabel (s : String) : Bool :=
  match s.toList with
  | [] => false
  | c :: rest =>
      alnumChar c && alnumChar (rest.getLastD c) &&
      rest.all (fun x => alnumChar x || x == '-')

/-- Modelled from the spec: "`registry` is a DNS hostname" (§3) — one or
more DNS labels joined by dots. -/
def specDnsHostname (s : String) : Bool :=
  s != "" && (splitOnChar '.' s).all specDnsLabel

/-- Real filesystems store files at pairwise prefix-incomparable paths:
no file path is a (weak) prefix of another file's path.  Every state
reachable through `Put` with slash-separated identifier keys satisfies
this. -/
def wellFormedFs (fs : List (Path × List Nat)) : Prop :=
  fs.Pairwise (fun a b => ¬ a.1 <+: b.1 ∧ ¬ b.1 <+: a.1)

instance (fs : List (Path × List Nat)) : Decidable (wellFormedFs fs) := by
  unfold wellFormedFs
  exact List.instDecidablePairwise fs

/-- Total number of stored bytes. -/
def sumBytes (fs : List (Path × List Nat)) : Nat :=
  (fs.map (fun e => e.2.length)).sum

/-! ## Helper lemmas -/

theorem cleanStep_normal (acc : List String) (seg : String) (h : normalSeg seg = true) :
    cleanStep acc seg = acc ++ [seg] := by
  have h' : seg ≠ "" ∧ seg ≠ "." ∧ seg ≠ ".." := by
    simpa [normalSeg, bne_iff_ne, and_assoc] using h
  simp [cleanStep, h'.1, h'.2.1, h'.2.2]

theorem cleanAbs_foldl_normal (l : List String) :
    ∀ acc : List String, (∀ s ∈ l, normalSeg s = true) → l.foldl cleanStep acc = acc ++ l := by
  induction l with
  | nil => intro acc _; simp
  | cons hd tl ih =>
      intro acc h
      have hhd : normalSeg hd = true := h hd (List.mem_cons_self hd tl)
      have htl : ∀ s ∈ tl, normalSeg s = true := fun s hs => h s (List.mem_cons_of_mem hd hs)
      simp only [List.foldl_cons, cleanStep_normal acc hd hhd, ih (acc ++ [hd]) htl,
        List.append_assoc, List.singleton_append]

theorem cleanAbs_of_normal (l : List String) (h : ∀ s ∈ l, normalSeg s = true) :
    cleanAbs l = l := by
  simpa [cleanAbs] using cleanAbs_foldl_normal l [] h

theorem resolvePath_of_normal (root : Path) (key : String)
    (hroot : ∀ s ∈ root, normalSeg s = true)
    (hkey : ∀ s ∈ splitOnChar '/' key, normalSeg s = true) :
    resolvePath root key = root ++ splitOnChar '/' key := by
  unfold resolvePath
  apply cleanAbs_of_normal
  intro s hs
  rcases List.mem_append.mp hs with h | h
  · exact hroot s h
  · exact hkey s h

/-! ## Claim theorems -/

/-- Claim C1 (evaluation of the code at the failing schedule): the claim
says N concurrent binary GET misses for one key perform exactly one
upstream archive download, with `Get` re-checked under the process-wide
install lock before `GetDownloadInfo`.  In the embedded engine — which
follows `DownloadProvider` and `downloadFile`, where the lock is taken
only inside `downloadFile` and no re-check exists — two workers that
both pass the optimistic cache check before either installs each
perform an upstream `GetDownloadInfo` call and an archive download:
both info calls and both downloads happen, and both workers run to
completion with the key installed. -/
theorem c1_engine_double_download :
    (engineRun (engineInit 2) [0, 1, 0, 0, 0, 0, 1, 1, 1, 1]).downloads = 2 ∧
    (engineRun (engineInit 2) [0, 1, 0, 0, 0, 0, 1, 1, 1, 1]).infoCalls = 2 ∧
    (engineRun (engineInit 2) [0, 1, 0, 0, 0, 0, 1, 1, 1, 1]).pcs =
      [EnginePc.done, EnginePc.done] ∧
    (engineRun (engineInit 2) [0, 1, 0, 0, 0, 0, 1, 1, 1, 1]).installed = true := by
  decide

/-- Claim C3 (evaluation of the code at the failing input): the claim
says every public local-store operation rejects a key whose normalized
form escapes the store root with an invalid-path error.  The embedded
store — which joins `baseDir` and the key with lexical cleaning and
performs no containment check at all — instead resolves the key
`../secret.txt` under root `/tmp/cache` to the outside path
`/tmp/secret.txt`, reports `Exists = true` for a file that lives there,
writes a new file outside the root through `Put` without error, and
removes the outside file through `DeleteByPrefix`, returning count 1. -/
theorem c3_path_escape_not_rejected :
    resolvePath ["tmp", "cache"] "../secret.txt" = ["tmp", "secret.txt"] ∧
    (["tmp", "cache"] : Path).isPrefixOf (resolvePath ["tmp", "cache"] "../secret.txt") = false ∧
    localExists
      { baseDir := ["tmp", "cache"],
        files := [(["tmp", "secret.txt"], [1, 2, 3])],
        metrics := Metrics.init } "../secret.txt" = true ∧
    (localPut
      { baseDir := ["tmp", "cache"],
        files := [(["tmp", "secret.txt"], [1, 2, 3])],
        metrics := Metrics.init } "../escape.txt" [7]).files =
      [(["tmp", "secret.txt"], [1, 2, 3]), (["tmp", "escape.txt"], [7])] ∧
    (deleteByPrefixLocal
      { baseDir := ["tmp", "cache"],
        files := [(["tmp", "secret.txt"], [1, 2, 3])],
        metrics := Metrics.init } "../secret.txt").1 = 1 := by
  decide

/-- Claim C4 (evaluation of the code at the failing input): the claim
says a binary GET whose filename-captured provider name differs from the
URL's provider segment yields 400 with no upstream request.  In the
embedded router and handler, the filename
`terraform-provider-notrandom_3.7.2_linux_amd64.zip` requested under
provider `random` parses with capture `notrandom`, the capture is
discarded, validation passes, and on a cache miss the handler proceeds
to the upstream download-info request — not a 400. -/
theorem c4_provider_mismatch_not_rejected :
    parseArchiveFilename "terraform-provider-notrandom_3.7.2_linux_amd64.zip" =
      some ("notrandom", "3.7.2", "linux", "amd64") ∧
    "notrandom" ≠ "random" ∧
    routeFileOrVersionModel "registry.terraform.io" "hashicorp" "random"
        "terraform-provider-notrandom_3.7.2_linux_amd64.zip" [] [] =
      RouteOutcome.binary
        (DownloadOutcome.fetchInfo
          (getCacheKey "registry.terraform.io" "hashicorp" "random" "3.7.2" "linux" "amd64")
          "https://registry.terraform.io/v1/providers/hashicorp/random/3.7.2/download/linux/amd64") := by
  decide

/-- Claim C5 counterexample: the claim, quantified over both store
backends, says `DeleteByPrefix(p)` leaves untouched every key that
merely extends `p` as a string without a `/` boundary (its own example:
`R/N/other` under `p = R/N/oth`).  The embedded S3 store deletes by raw
string prefix: with the single object `R/N/other/f.zip`, deleting the
segment-boundary prefix `R/N/oth` removes that sibling object and
reports count 1. -/
theorem c5_s3_sibling_deleted :
    "R/N/other/f.zip" ≠ "R/N/oth" ∧
    strStartsWith "R/N/other/f.zip" "R/N/oth/" = false ∧
    (deleteByPrefixS3 { bucket := [("R/N/other/f.zip", 3)], metrics := Metrics.init }
        "R/N/oth").1 = 1 ∧
    (deleteByPrefixS3 { bucket := [("R/N/other/f.zip", 3)], metrics := Metrics.init }
        "R/N/oth").2.bucket = [] := by
  decide

/-- Claim C6 counterexample: the claim says each identifier is validated
against the grammars of §3, the registry as a DNS hostname.  The
embedded `isValidRegistry` only rejects the empty string and the
characters space, slash and backslash: the registry `a_b` passes it
although it is not a DNS hostname (underscore), and both the index
handler and the binary handler proceed to an upstream request for it
instead of answering 400. -/
theorem c6_registry_not_dns_checked :
    isValidRegistry "a_b" = true ∧
    specDnsHostname "a_b" = false ∧
    getProviderIndexModel "a_b" "hashicorp" "random" =
      IndexOutcome.upstream "https://a_b/v1/providers/hashicorp/random/versions" ∧
    downloadProviderModel "a_b" "hashicorp" "random" "3.7.2" "linux" "amd64" [] =
      DownloadOutcome.fetchInfo
        (getCacheKey "a_b" "hashicorp" "random" "3.7.2" "linux" "amd64")
        "https://a_b/v1/providers/hashicorp/random/3.7.2/download/linux/amd64" := by
  decide

/-- Claim C9 counterexample: the claim says every `UpdateSize(d)` call
adds `d` to the `cache_size_bytes` gauge, so a `DeleteByPrefix` that
removes `B` bytes decreases the gauge by exactly `B`.  The embedded
`UpdateSize` (whose Go body is `CacheSizeBytes.Set(float64(size))`)
sets the gauge instead: with the gauge at 1024, `UpdateSize(2048)`
leaves 2048, not 3072; and a local `DeleteByPrefix` removing 3 bytes
from a store whose gauge reads 10 leaves the gauge at -3, not 7. -/
theorem c9_update_size_sets_not_adds :
    (updateSize { hits := 0, misses := 0, deletions := 0, sizeBytes := 1024 } 2048).sizeBytes =
      2048 ∧
    (updateSize { hits := 0, misses := 0, deletions := 0, sizeBytes := 1024 } 2048).sizeBytes ≠
      1024 + 2048 ∧
    (deleteByPrefixLocal
      { baseDir := ["c"],
        files := [(["c", "R", "N", "V", "f.zip"], [1, 2, 3])],
        metrics := { hits := 0, misses := 0, deletions := 0, sizeBytes := 10 } } "R").1 = 1 ∧
    (deleteByPrefixLocal
      { baseDir := ["c"],
        files := [(["c", "R", "N", "V", "f.zip"], [1, 2, 3])],
        metrics := { hits := 0, misses := 0, deletions := 0, sizeBytes := 10 } }
        "R").2.metrics.sizeBytes = -3 ∧
    ((-3 : Int) ≠ 10 - 3) := by
  decide

/-- Claim C2: a download whose body hashes to something other than the
upstream-reported shasum aborts inside `downloadFile` before any `Put`:
the store is returned unchanged, a key that was absent stays absent, and
the handler answers HTTP 500 with error field
`failed to download or verify provider binary`. -/
theorem c2_checksum_mismatch_aborts
    (s : LocalStorage) (key : String) (body : List Nat) (expected : String)
    (hne : expected ≠ "")
    (hmis : sha256hex body ≠ expected)
    (habs : localExists s key = false) :
    downloadFileModel s key 200 body expected =
      (Except.error "checksum verification failed", s) ∧
    respondAfterDownload (downloadFileModel s key 200 body expected).1 =
      { status := 500, errorField := some "failed to download or verify provider binary" } ∧
    localExists (downloadFileModel s key 200 body expected).2 key = false := by
  have hcond : (expected != "" && sha256hex body != expected) = true := by
    simp only [Bool.and_eq_true, bne_iff_ne, ne_eq]
    exact ⟨hne, hmis⟩
  have h1 : downloadFileModel s key 200 body expected =
      (Except.error "checksum verification failed", s) := by
    unfold downloadFileModel
    simp [hcond]
  refine ⟨h1, ?_, ?_⟩
  · rw [h1]
    rfl
  · rw [h1]
    exact habs

/-- Witness for C2 at a concrete input: the empty store, key `k`, body
`"abc"` and the non-matching upstream digest `"00"`. -/
theorem c2_checksum_mismatch_aborts_witness :
    ("00" : String) ≠ "" ∧ sha256hex [97, 98, 99] ≠ "00" ∧
    localExists ⟨["cache"], [], Metrics.init⟩ "k" = false ∧
    (downloadFileModel ⟨["cache"], [], Metrics.init⟩ "k" 200 [97, 98, 99] "00" =
        (Except.error "checksum verification failed", ⟨["cache"], [], Metrics.init⟩) ∧
      respondAfterDownload
          (downloadFileModel ⟨["cache"], [], Metrics.init⟩ "k" 200 [97, 98, 99] "00").1 =
        { status := 500, errorField := some "failed to download or verify provider binary" } ∧
      localExists
          (downloadFileModel ⟨["cache"], [], Metrics.init⟩ "k" 200 [97, 98, 99] "00").2 "k" =
        false) :=
  ⟨by decide, by decide, by decide,
   c2_checksum_mismatch_aborts ⟨["cache"], [], Metrics.init⟩ "k" [97, 98, 99] "00"
     (by decide) (by decide) (by decide)⟩

/-- Claim C6 as amended: before any I/O every handler validates its
identifiers against the code's own checks — registry merely non-empty
and free of space/slash/backslash (not a DNS-hostname grammar),
namespace an alphanumeric label with interior hyphens, provider
lower-case alphanumerics with interior hyphens, version the semver-like
pattern, os and arch drawn from the closed allow-lists — and a handler
produces its 400 `badRequest` outcome (which performs no upstream call)
exactly when that validation fails, irrespective of the store contents
or of anything the upstream would return. -/
theorem c6_validation_before_io_amended
    (registry ns provider version osName arch : String)
    (cached : List String) (upstream : List VersionEntry) :
    (getProviderIndexModel registry ns provider = IndexOutcome.badRequest "invalid parameters" ↔
      (isValidRegistry registry && isValidNamespace ns && isValidProvider provider) = false) ∧
    ((∃ msg, getProviderVersionModel registry ns provider version upstream =
        VersionOutcome.badRequest msg) ↔
      (version = "" ∨
        (isValidRegistry registry && isValidNamespace ns && isValidProvider provider &&
         isValidVersion version) = false)) ∧
    (downloadProviderModel registry ns provider version osName arch cached =
        DownloadOutcome.badRequest "invalid parameters" ↔
      (isValidRegistry registry && isValidNamespace ns && isValidProvider provider &&
       isValidVersion version && isValidOS osName && isValidArch arch) = false) := by
  refine ⟨?_, ?_, ?_⟩
  · cases hb : (isValidRegistry registry && isValidNamespace ns && isValidProvider provider) <;>
      simp [getProviderIndexModel, hb]
  · by_cases hv : version = ""
    · simp [getProviderVersionModel, hv]
    · cases hb : (isValidRegistry registry && isValidNamespace ns && isValidProvider provider &&
          isValidVersion version)
      · simp [getProviderVersionModel, hv, hb]
      · simp only [getProviderVersionModel, hv, hb]
        cases hfind : upstream.find? (fun e => e.version == version) <;>
          simp [hv, hfind]
  · cases hb : (isValidRegistry registry && isValidNamespace ns && isValidProvider provider &&
        isValidVersion version && isValidOS osName && isValidArch arch)
    · simp [downloadProviderModel, hb]
    · simp [downloadProviderModel, hb]
      split <;> simp

theorem list_any_congr {α : Type} {p q : α → Bool} :
    ∀ {l : List α}, (∀ a ∈ l, p a = q a) → l.any p = l.any q := by
  intro l
  induction l with
  | nil => intro _; rfl
  | cons hd tl ih =>
      intro h
      simp only [List.any_cons]
      rw [h hd (List.mem_cons_self hd tl), ih (fun a ha => h a (List.mem_cons_of_mem hd ha))]

theorem insertArchive_any (m : List (String × String)) (k v k' : String) :
    (insertArchive m k v).any (fun e => e.1 == k') =
      ((k == k') || m.any (fun e => e.1 == k')) := by
  unfold insertArchive
  by_cases hany : m.any (fun e => e.1 == k) = true
  · rw [if_pos hany]
    rw [List.any_map]
    cases hkk : (k == k')
    · simp only [Bool.false_or]
      apply list_any_congr
      intro e _
      by_cases hek : (e.1 == k) = true
      · have he1 : e.1 = k := by simpa using hek
        simp [Function.comp, hek, he1, hkk]
      · simp [Function.comp, hek]
    · simp only [Bool.true_or]
      rw [List.any_eq_true]
      rcases List.any_eq_true.mp hany with ⟨e0, he0, hk0⟩
      refine ⟨e0, he0, ?_⟩
      simp only [Function.comp]
      simp [hk0, hkk]
  · rw [if_neg hany]
    rw [List.any_append]
    simp [Bool.or_comm]

theorem insertArchive_mem (m : List (String × String)) (k v : String) (e : String × String)
    (he : e ∈ insertArchive m k v) : e ∈ m ∨ e = (k, v) := by
  unfold insertArchive at he
  by_cases hany : m.any (fun x => x.1 == k) = true
  · rw [if_pos hany] at he
    rcases List.mem_map.mp he with ⟨a, ha, hae⟩
    by_cases hk : (a.1 == k) = true
    · right
      rw [← hae]
      simp [hk]
    · left
      rw [← hae]
      simp only [hk]
      simpa [hk] using ha
  · rw [if_neg hany] at he
    rcases List.mem_append.mp he with h | h
    · exact Or.inl h
    · right
      simpa using h

theorem lookupArchive_isSome (m : List (String × String)) (k : String) :
    (lookupArchive m k).isSome = m.any (fun e => e.1 == k) := by
  unfold lookupArchive
  cases hf : m.find? (fun e => e.1 == k) with
  | none =>
      simp only [Option.isSome_none]
      symm
      rw [List.any_eq_false]
      intro e he
      have := List.find?_eq_none.mp hf e he
      simpa using this
  | some e =>
      simp only [Option.isSome_some]
      symm
      rw [List.any_eq_true]
      have hp := List.find?_some hf
      exact ⟨e, List.mem_of_find?_eq_some hf, hp⟩

theorem lookupArchive_some_val (pre : String → String) (m : List (String × String))
    (k v : String) (hval : ∀ e ∈ m, e.2 = pre e.1) (h : lookupArchive m k = some v) :
    v = pre k := by
  unfold lookupArchive at h
  cases hf : m.find? (fun e => e.1 == k) with
  | none => rw [hf] at h; cases h
  | some e =>
      rw [hf] at h
      have hv : e.2 = v := by
        injection h
      have he := List.mem_of_find?_eq_some hf
      have hp := List.find?_some hf
      have he1 : e.1 = k := by simpa using hp
      rw [← hv, hval e he, he1]

theorem buildArchives_spec (provider version : String) (pls : List (String × String)) :
    ∀ acc : List (String × String),
      (∀ e ∈ acc, e.2 = "terraform-provider-" ++ provider ++ "_" ++ version ++ "_" ++
        e.1 ++ ".zip") →
      (∀ e ∈ pls.foldl
          (fun m pl => insertArchive m (pl.1 ++ "_" ++ pl.2)
            (archiveFilename provider version pl.1 pl.2)) acc,
        e.2 = "terraform-provider-" ++ provider ++ "_" ++ version ++ "_" ++ e.1 ++ ".zip") ∧
      (∀ k, ((pls.foldl
          (fun m pl => insertArchive m (pl.1 ++ "_" ++ pl.2)
            (archiveFilename provider version pl.1 pl.2)) acc).any (fun e => e.1 == k)) =
        (acc.any (fun e => e.1 == k) || pls.any (fun pl => (pl.1 ++ "_" ++ pl.2) == k))) := by
  induction pls with
  | nil =>
      intro acc hacc
      exact ⟨by simpa using hacc, fun k => by simp⟩
  | cons pl tl ih =>
      intro acc hacc
      have hfile : archiveFilename provider version pl.1 pl.2 =
          "terraform-provider-" ++ provider ++ "_" ++ version ++ "_" ++
            (pl.1 ++ "_" ++ pl.2) ++ ".zip" := by
        simp [archiveFilename, String.append_assoc]
      have hacc' : ∀ e ∈ insertArchive acc (pl.1 ++ "_" ++ pl.2)
          (archiveFilename provider version pl.1 pl.2),
          e.2 = "terraform-provider-" ++ provider ++ "_" ++ version ++ "_" ++ e.1 ++ ".zip" := by
        intro e he
        rcases insertArchive_mem _ _ _ _ he with h | h
        · exact hacc e h
        · rw [h]
          simpa using hfile
      rcases ih (insertArchive acc (pl.1 ++ "_" ++ pl.2)
          (archiveFilename provider version pl.1 pl.2)) hacc' with ⟨hv, ha⟩
      refine ⟨by simpa using hv, fun k => ?_⟩
      have := ha k
      simp only [List.foldl_cons] at this ⊢
      rw [this, insertArchive_any]
      simp [Bool.or_assoc, Bool.or_comm, Bool.or_left_comm]

/-- Claim C7: for a version-manifest request with valid identifiers,
when the upstream version list has no entry for the requested version
the handler answers 404; when it has one, the handler answers 200 with
an archives map whose keys are exactly `<os>_<arch>` for the platforms
of that entry and whose url values are the relative filenames
`terraform-provider-<provider>_<version>_<os>_<arch>.zip`. -/
theorem c7_version_manifest
    (registry ns provider version : String) (upstream : List VersionEntry)
    (hr : isValidRegistry registry = true) (hn : isValidNamespace ns = true)
    (hp : isValidProvider provider = true) (hv : isValidVersion version = true) :
    (upstream.find? (fun e => e.version == version) = none →
        getProviderVersionModel registry ns provider version upstream =
          VersionOutcome.notFound "version not found") ∧
    (∀ entry, upstream.find? (fun e => e.version == version) = some entry →
        getProviderVersionModel registry ns provider version upstream =
          VersionOutcome.ok (buildArchives provider version entry.platforms) ∧
        (∀ k, (lookupArchive (buildArchives provider version entry.platforms) k).isSome =
            entry.platforms.any (fun pl => (pl.1 ++ "_" ++ pl.2) == k)) ∧
        (∀ pl ∈ entry.platforms,
            lookupArchive (buildArchives provider version entry.platforms)
                (pl.1 ++ "_" ++ pl.2) =
              some (archiveFilename provider version pl.1 pl.2))) := by
  have hvne : version ≠ "" := by
    intro h
    rw [h] at hv
    exact absurd hv (by decide)
  have hb : (isValidRegistry registry && isValidNamespace ns && isValidProvider provider &&
      isValidVersion version) = true := by
    simp [hr, hn, hp, hv]
  constructor
  · intro hfind
    unfold getProviderVersionModel
    simp [hvne, hb, hfind]
  · intro entry hfind
    have hspecE := buildArchives_spec provider version entry.platforms []
      (by intro e he; simp at he)
    have hmodel : getProviderVersionModel registry ns provider version upstream =
        VersionOutcome.ok (buildArchives provider version entry.platforms) := by
      unfold getProviderVersionModel
      simp [hvne, hb, hfind]
    refine ⟨hmodel, ?_, ?_⟩
    · intro k
      rw [lookupArchive_isSome]
      have h := hspecE.2 k
      simpa [buildArchives] using h
    · intro pl hpl
      have hval : ∀ e ∈ buildArchives provider version entry.platforms,
          e.2 = "terraform-provider-" ++ provider ++ "_" ++ version ++ "_" ++ e.1 ++ ".zip" := by
        intro e he
        exact hspecE.1 e (by simpa [buildArchives] using he)
      have hsome : (lookupArchive (buildArchives provider version entry.platforms)
          (pl.1 ++ "_" ++ pl.2)).isSome = true := by
        rw [lookupArchive_isSome]
        have h := hspecE.2 (pl.1 ++ "_" ++ pl.2)
        have h' : (buildArchives provider version entry.platforms).any
            (fun e => e.1 == pl.1 ++ "_" ++ pl.2) =
            entry.platforms.any (fun q => (q.1 ++ "_" ++ q.2) == pl.1 ++ "_" ++ pl.2) := by
          simpa [buildArchives] using h
        rw [h']
        rw [List.any_eq_true]
        exact ⟨pl, hpl, by simp⟩
      rcases Option.isSome_iff_exists.mp hsome with ⟨v, hv2⟩
      have hveq := lookupArchive_some_val
        (fun k => "terraform-provider-" ++ provider ++ "_" ++ version ++ "_" ++ k ++ ".zip")
        (buildArchives provider version entry.platforms) (pl.1 ++ "_" ++ pl.2) v hval hv2
      rw [hv2, hveq]
      simp [archiveFilename, String.append_assoc]

/-- Witness for C7 at the spec's concrete scenario: provider `random`,
version `3.7.2`, upstream platforms `linux/amd64` and `darwin/arm64`. -/
theorem c7_version_manifest_witness :
    (isValidRegistry "registry.terraform.io" = true ∧ isValidNamespace "hashicorp" = true ∧
      isValidProvider "random" = true ∧ isValidVersion "3.7.2" = true) ∧
    (([⟨"3.7.2", [("linux", "amd64"), ("darwin", "arm64")]⟩] :
        List VersionEntry).find? (fun e => e.version == "3.7.2") =
      some ⟨"3.7.2", [("linux", "amd64"), ("darwin", "arm64")]⟩) ∧
    (getProviderVersionModel "registry.terraform.io" "hashicorp" "random" "3.7.2"
        [⟨"3.7.2", [("linux", "amd64"), ("darwin", "arm64")]⟩] =
      VersionOutcome.ok
        (buildArchives "random" "3.7.2" [("linux", "amd64"), ("darwin", "arm64")]) ∧
      (∀ k, (lookupArchive
          (buildArchives "random" "3.7.2" [("linux", "amd64"), ("darwin", "arm64")]) k).isSome =
        ([("linux", "amd64"), ("darwin", "arm64")] : List (String × String)).any
          (fun pl => (pl.1 ++ "_" ++ pl.2) == k)) ∧
      (∀ pl ∈ ([("linux", "amd64"), ("darwin", "arm64")] : List (String × String)),
        lookupArchive
            (buildArchives "random" "3.7.2" [("linux", "amd64"), ("darwin", "arm64")])
            (pl.1 ++ "_" ++ pl.2) =
          some (archiveFilename "random" "3.7.2" pl.1 pl.2))) :=
  ⟨⟨by decide, by decide, by decide, by decide⟩, by decide,
   (c7_version_manifest "registry.terraform.io" "hashicorp" "random" "3.7.2"
       [⟨"3.7.2", [("linux", "amd64"), ("darwin", "arm64")]⟩]
       (by decide) (by decide) (by decide) (by decide)).2
     ⟨"3.7.2", [("linux", "amd64"), ("darwin", "arm64")]⟩ (by decide)⟩

theorem wfRel_symm :
    Symmetric (fun a b : Path × List Nat => ¬ a.1 <+: b.1 ∧ ¬ b.1 <+: a.1) :=
  fun _ _ h => ⟨h.2, h.1⟩

theorem fileAt_mem {fs : List (Path × List Nat)} {p : Path} {c : List Nat}
    (h : fileAt fs p = some c) : (p, c) ∈ fs := by
  unfold fileAt at h
  cases hf : fs.find? (fun e => e.1 == p) with
  | none => rw [hf] at h; cases h
  | some e =>
      rw [hf] at h
      have hc : e.2 = c := by injection h
      have hp := List.find?_some hf
      have he1 : e.1 = p := by simpa using hp
      have := List.mem_of_find?_eq_some hf
      rw [← he1, ← hc]
      simpa using this

theorem fileAt_none_iff {fs : List (Path × List Nat)} {p : Path} :
    fileAt fs p = none ↔ ∀ e ∈ fs, e.1 ≠ p := by
  unfold fileAt
  cases hf : fs.find? (fun e => e.1 == p) with
  | none =>
      simp only [List.find?_eq_none] at hf
      constructor
      · intro _ e he
        have := hf e he
        simpa using this
      · intro _
        rfl
  | some e =>
      constructor
      · intro h
        cases h
      · intro hall
        have hp := List.find?_some hf
        have he1 : e.1 = p := by simpa using hp
        exact absurd he1 (hall e (List.mem_of_find?_eq_some hf))

theorem wf_prefix_eq {fs : List (Path × List Nat)} (hwf : wellFormedFs fs)
    {x : Path × List Nat} (hx : x ∈ fs) :
    ∀ e ∈ fs, x.1 <+: e.1 → e.1 = x.1 := by
  have hwf' : fs.Pairwise (fun a b => ¬ a.1 <+: b.1 ∧ ¬ b.1 <+: a.1) := hwf
  intro e he hpre
  by_contra hne1
  have hne : e ≠ x := fun h => hne1 (by rw [h])
  exact (List.Pairwise.forall wfRel_symm hwf' he hx hne).2 hpre

theorem wf_count_key {fs : List (Path × List Nat)} (hwf : wellFormedFs fs)
    {p : Path} {c : List Nat} (hf : (p, c) ∈ fs) :
    (fs.filter (fun e => e.1 == p)).length = 1 := by
  have hwf' : fs.Pairwise (fun a b => ¬ a.1 <+: b.1 ∧ ¬ b.1 <+: a.1) := hwf
  clear hwf
  induction fs with
  | nil => cases hf
  | cons hd tl ih =>
      rcases List.pairwise_cons.mp hwf' with ⟨hhd, htl⟩
      rcases List.mem_cons.mp hf with heq | hmem
      · have hd1 : hd.1 = p := by rw [← heq]
        have htlnone : ∀ e ∈ tl, ¬ e.1 = p := by
          intro e he hep
          exact (hhd e he).1 (by rw [hd1, hep])
        have hfil : tl.filter (fun e => e.1 == p) = [] :=
          List.filter_eq_nil_iff.mpr (fun e he => by simp [htlnone e he])
        simp [List.filter_cons, hd1, hfil]
      · have hd1 : ¬ hd.1 = p := by
          intro hcon
          exact (hhd (p, c) hmem).1 (by rw [hcon])
        simp only [List.filter_cons]
        have : (hd.1 == p) = false := by simp [hd1]
        rw [this]
        simp only [Bool.false_eq_true, if_false]
        exact ih hmem htl

theorem deleteByPrefixLocal_file (s : LocalStorage) (pfx : String) {c : List Nat}
    (h : fileAt s.files (resolvePath s.baseDir pfx) = some c) :
    deleteByPrefixLocal s pfx =
      (1, { s with
              files := s.files.filter (fun e => e.1 != resolvePath s.baseDir pfx),
              metrics := updateSize s.metrics (-(Int.ofNat c.length)) }) := by
  unfold deleteByPrefixLocal
  simp only [h]

theorem deleteByPrefixLocal_dir (s : LocalStorage) (pfx : String)
    (hfa : fileAt s.files (resolvePath s.baseDir pfx) = none)
    (hdir : isDirAt s.files (resolvePath s.baseDir pfx) = true) :
    deleteByPrefixLocal s pfx =
      ((s.files.filter (fun e => (resolvePath s.baseDir pfx).isPrefixOf e.1 &&
          resolvePath s.baseDir pfx != e.1)).length,
       { s with
           files := s.files.filter (fun e => !((resolvePath s.baseDir pfx).isPrefixOf e.1 &&
             resolvePath s.baseDir pfx != e.1)),
           metrics :=
             recordDeletion
               (updateSize s.metrics
                 (-(Int.ofNat ((s.files.filter (fun e =>
                   (resolvePath s.baseDir pfx).isPrefixOf e.1 &&
                     resolvePath s.baseDir pfx != e.1)).map (fun e => e.2.length)).sum)))
               (s.files.filter (fun e => (resolvePath s.baseDir pfx).isPrefixOf e.1 &&
                 resolvePath s.baseDir pfx != e.1)).length }) := by
  unfold deleteByPrefixLocal
  simp only [hfa, hdir, if_true]

theorem deleteByPrefixLocal_missing (s : LocalStorage) (pfx : String)
    (hfa : fileAt s.files (resolvePath s.baseDir pfx) = none)
    (hdir : isDirAt s.files (resolvePath s.baseDir pfx) = false) :
    deleteByPrefixLocal s pfx = (0, s) := by
  unfold deleteByPrefixLocal
  simp only [hfa, hdir, Bool.false_eq_true, if_false]

theorem isPrefixOf_eq_true_of_pref {l1 l2 : Path} (h : l1 <+: l2) :
    l1.isPrefixOf l2 = true :=
  by simpa using h

theorem isPrefixOf_eq_false_of_pref {l1 l2 : Path} (h : ¬ l1 <+: l2) :
    l1.isPrefixOf l2 = false := by
  cases hres : l1.isPrefixOf l2 with
  | false => rfl
  | true => exact absurd (by simpa using hres) h

theorem append_isPrefixOf_append (root l1 l2 : Path) :
    ((root ++ l1).isPrefixOf (root ++ l2)) = (l1.isPrefixOf l2) := by
  by_cases h : l1 <+: l2
  · rw [isPrefixOf_eq_true_of_pref h,
      isPrefixOf_eq_true_of_pref ((List.prefix_append_right_inj _).mpr h)]
  · rw [isPrefixOf_eq_false_of_pref h,
      isPrefixOf_eq_false_of_pref (fun hh => h ((List.prefix_append_right_inj _).mp hh))]

/-- Claim C5 as amended: the claim as stated over both stores holds for
the local filesystem store — the files removed are exactly those whose
path equals the resolved prefix or lies strictly below it, nothing else
changes, and the count is the number of entries removed — while the S3
store instead removes every key having the prefix as a raw string
prefix (counting exactly those), so a sibling object whose key merely
extends the prefix without a `/` boundary is deleted there as well. -/
theorem c5_delete_by_prefix_amended
    (s : LocalStorage) (pfx : String) (b : S3Storage)
    (hroot : ∀ seg ∈ s.baseDir, normalSeg seg = true)
    (hps : ∀ seg ∈ splitOnChar '/' pfx, normalSeg seg = true)
    (hwf : wellFormedFs s.files) :
    ((deleteByPrefixLocal s pfx).2.files =
        s.files.filter (fun e => !((s.baseDir ++ splitOnChar '/' pfx).isPrefixOf e.1)) ∧
      (deleteByPrefixLocal s pfx).1 =
        (s.files.filter (fun e => (s.baseDir ++ splitOnChar '/' pfx).isPrefixOf e.1)).length ∧
      (∀ ks : Path, ((s.baseDir ++ splitOnChar '/' pfx).isPrefixOf (s.baseDir ++ ks)) =
        ((splitOnChar '/' pfx).isPrefixOf ks))) ∧
    ((deleteByPrefixS3 b pfx).2.bucket =
        b.bucket.filter (fun e => !strStartsWith e.1 pfx) ∧
      (deleteByPrefixS3 b pfx).1 =
        (b.bucket.filter (fun e => strStartsWith e.1 pfx)).length) := by
  have hres : resolvePath s.baseDir pfx = s.baseDir ++ splitOnChar '/' pfx :=
    resolvePath_of_normal s.baseDir pfx hroot hps
  constructor
  · refine ?_
    cases hfa : fileAt s.files (resolvePath s.baseDir pfx) with
    | some c =>
        have hmem : (s.baseDir ++ splitOnChar '/' pfx, c) ∈ s.files := by
          rw [← hres]
          exact fileAt_mem hfa
        have hd := deleteByPrefixLocal_file s pfx hfa
        rw [hd]
        have hpoint : ∀ e ∈ s.files,
            (e.1 != resolvePath s.baseDir pfx) =
              !((s.baseDir ++ splitOnChar '/' pfx).isPrefixOf e.1) := by
          intro e he
          rw [hres]
          by_cases he1 : e.1 = s.baseDir ++ splitOnChar '/' pfx
          · rw [he1, isPrefixOf_eq_true_of_pref List.prefix_rfl]
            simp
          · have hnp : ¬ (s.baseDir ++ splitOnChar '/' pfx) <+: e.1 := by
              intro hcon
              exact he1 (wf_prefix_eq hwf hmem e he hcon)
            rw [isPrefixOf_eq_false_of_pref hnp]
            simp [bne_iff_ne, he1]
        have hpoint2 : ∀ e ∈ s.files,
            ((s.baseDir ++ splitOnChar '/' pfx).isPrefixOf e.1) =
              (e.1 == s.baseDir ++ splitOnChar '/' pfx) := by
          intro e he
          by_cases he1 : e.1 = s.baseDir ++ splitOnChar '/' pfx
          · rw [he1, isPrefixOf_eq_true_of_pref List.prefix_rfl]
            simp
          · have hnp : ¬ (s.baseDir ++ splitOnChar '/' pfx) <+: e.1 := by
              intro hcon
              exact he1 (wf_prefix_eq hwf hmem e he hcon)
            rw [isPrefixOf_eq_false_of_pref hnp]
            simp [he1]
        refine ⟨List.filter_congr hpoint, ?_, fun ks => append_isPrefixOf_append _ _ _⟩
        rw [List.filter_congr hpoint2]
        exact (wf_count_key hwf hmem).symm
    | none =>
        have hnone : ∀ e ∈ s.files, e.1 ≠ s.baseDir ++ splitOnChar '/' pfx := by
          rw [← hres]
          exact fileAt_none_iff.mp hfa
        cases hdir : isDirAt s.files (resolvePath s.baseDir pfx) with
        | true =>
            have hd := deleteByPrefixLocal_dir s pfx hfa hdir
            rw [hd]
            have hpoint : ∀ e ∈ s.files,
                ((resolvePath s.baseDir pfx).isPrefixOf e.1 &&
                  resolvePath s.baseDir pfx != e.1) =
                  ((s.baseDir ++ splitOnChar '/' pfx).isPrefixOf e.1) := by
              intro e he
              rw [hres]
              have hne : ((s.baseDir ++ splitOnChar '/' pfx) != e.1) = true := by
                simp only [bne_iff_ne, ne_eq]
                exact fun h => hnone e he h.symm
              simp [hne]
            have hpointNeg : ∀ e ∈ s.files,
                (!((resolvePath s.baseDir pfx).isPrefixOf e.1 &&
                  resolvePath s.baseDir pfx != e.1)) =
                  (!((s.baseDir ++ splitOnChar '/' pfx).isPrefixOf e.1)) := by
              intro e he
              rw [hpoint e he]
            exact ⟨List.filter_congr hpointNeg, by rw [List.filter_congr hpoint],
              fun ks => append_isPrefixOf_append _ _ _⟩
        | false =>
            have hd := deleteByPrefixLocal_missing s pfx hfa hdir
            rw [hd]
            have hnopref : ∀ e ∈ s.files,
                ((s.baseDir ++ splitOnChar '/' pfx).isPrefixOf e.1) = false := by
              intro e he
              by_contra hcon
              have hpre : ((s.baseDir ++ splitOnChar '/' pfx).isPrefixOf e.1) = true := by
                revert hcon
                cases ((s.baseDir ++ splitOnChar '/' pfx).isPrefixOf e.1) <;> simp
              have : isDirAt s.files (resolvePath s.baseDir pfx) = true := by
                unfold isDirAt
                rw [List.any_eq_true]
                refine ⟨e, he, ?_⟩
                rw [hres]
                simp only [Bool.and_eq_true, bne_iff_ne, ne_eq]
                exact ⟨hpre, fun h => hnone e he h.symm⟩
              rw [hdir] at this
              cases this
            refine ⟨?_, ?_, fun ks => append_isPrefixOf_append _ _ _⟩
            · symm
              rw [List.filter_eq_self]
              intro e he
              simp [hnopref e he]
            · symm
              simp only [List.length_eq_zero]
              exact List.filter_eq_nil_iff.mpr (fun e he => by simp [hnopref e he])
  · unfold deleteByPrefixS3
    cases hobj : (b.bucket.filter (fun e => strStartsWith e.1 pfx)).isEmpty with
    | true =>
        have hnil : b.bucket.filter (fun e => strStartsWith e.1 pfx) = [] :=
          List.isEmpty_iff.mp hobj
        have hall : ∀ e ∈ b.bucket, ¬ strStartsWith e.1 pfx = true :=
          List.filter_eq_nil_iff.mp hnil
        simp only [hnil, List.isEmpty_nil, if_true]
        constructor
        · symm
          rw [List.filter_eq_self]
          intro e he
          simp [hall e he]
        · simp [hnil]
    | false =>
        simp only [hobj, Bool.false_eq_true, if_false]
        constructor <;> simp

theorem localGet_hit (s : LocalStorage) (key : String)
    (h : statExists s.files (resolvePath s.baseDir key) = true) :
    localGet s key =
      (some ((fileAt s.files (resolvePath s.baseDir key)).getD []),
       { s with
           metrics := updateSize (recordHit s.metrics)
             (Int.ofNat ((fileAt s.files (resolvePath s.baseDir key)).getD []).length) }) := by
  unfold localGet
  simp only [h, if_true]

theorem localGet_miss (s : LocalStorage) (key : String)
    (h : statExists s.files (resolvePath s.baseDir key) = false) :
    localGet s key = (none, { s with metrics := recordMiss s.metrics }) := by
  unfold localGet
  simp only [h, Bool.false_eq_true, if_false]

theorem localPut_new (s : LocalStorage) (key : String) (content : List Nat)
    (h : statExists s.files (resolvePath s.baseDir key) = false) :
    localPut s key content =
      { s with
          files := s.files ++ [(resolvePath s.baseDir key, content)],
          metrics := updateSize s.metrics (Int.ofNat content.length) } := by
  unfold localPut
  simp only [h, Bool.false_eq_true, if_false]

theorem statExists_false_fileAt {fs : List (Path × List Nat)} {p : Path}
    (h : statExists fs p = false) : fileAt fs p = none := by
  unfold statExists at h
  rcases Bool.or_eq_false_iff.mp h with ⟨h1, _⟩
  exact Option.not_isSome_iff_eq_none.mp (by simp [h1])

theorem fileAt_append_of_none {fs : List (Path × List Nat)} {p : Path} {c : List Nat}
    (h : fileAt fs p = none) : fileAt (fs ++ [(p, c)]) p = some c := by
  have hfind : fs.find? (fun e => e.1 == p) = none := by
    unfold fileAt at h
    cases hf : fs.find? (fun e => e.1 == p) with
    | none => rfl
    | some e => rw [hf] at h; cases h
  unfold fileAt
  rw [List.find?_append, hfind]
  simp

theorem statExists_append_self {fs : List (Path × List Nat)} {p : Path} {c : List Nat}
    (h : fileAt fs p = none) : statExists (fs ++ [(p, c)]) p = true := by
  unfold statExists
  rw [fileAt_append_of_none h]
  simp

/-- Claim C8 counterexample: the claim says `cache_hits_total +
cache_misses_total` equals the number of validated binary GETs and that
`cache_deletions_total` equals the sum of `deleted` counts returned by
DELETE responses.  One validated binary GET on an empty store with a
successful matching download records a miss on the initial read AND a
hit on the post-install re-read — hits + misses = 2 after 1 request —
and a local single-file DELETE returns `deleted = 1` while leaving
`cache_deletions_total` unchanged. -/
theorem c8_metrics_counterexample :
    ((binaryGetModel ⟨["cache"], [], Metrics.init⟩ "registry.terraform.io" "hashicorp"
        "random" "3.7.2" "linux" "amd64" [97, 98, 99]
        "ba7816bf8f01cfea414140de5dae2223b00361a396177a9cb410ff61f20015ad").1.status = 200 ∧
      (binaryGetModel ⟨["cache"], [], Metrics.init⟩ "registry.terraform.io" "hashicorp"
        "random" "3.7.2" "linux" "amd64" [97, 98, 99]
        "ba7816bf8f01cfea414140de5dae2223b00361a396177a9cb410ff61f20015ad").2.metrics.hits = 1 ∧
      (binaryGetModel ⟨["cache"], [], Metrics.init⟩ "registry.terraform.io" "hashicorp"
        "random" "3.7.2" "linux" "amd64" [97, 98, 99]
        "ba7816bf8f01cfea414140de5dae2223b00361a396177a9cb410ff61f20015ad").2.metrics.misses =
        1 ∧
      1 + 1 ≠ 1) ∧
    ((deleteByPrefixLocal
        ⟨["c"], [(["c", "R", "N", "V", "v", "f.zip"], [9])],
         { hits := 0, misses := 0, deletions := 5, sizeBytes := 0 }⟩ "R/N/V/v/f.zip").1 = 1 ∧
      (deleteByPrefixLocal
        ⟨["c"], [(["c", "R", "N", "V", "v", "f.zip"], [9])],
         { hits := 0, misses := 0, deletions := 5, sizeBytes := 0 }⟩
        "R/N/V/v/f.zip").2.metrics.deletions = 5) := by
  decide

/-- Claim C8 as amended: for a validated binary GET whose upstream
reports a non-empty digest matching the body, `cache_hits_total` grows
by exactly one — on a cache hit from the initial read, on a miss from
the post-install re-read — while `cache_misses_total` grows by one
exactly when the initial read misses; hence hits + misses grows by two,
not one, for each installing GET.  `cache_deletions_total` grows by the
returned count for directory deletions in the local store but not for
its single-file branch, and always grows by the returned count in the
S3 store. -/
theorem c8_metric_accounting_amended
    (s : LocalStorage) (registry ns provider version osName arch : String)
    (body : List Nat) (shasum : String)
    (hvalid : (isValidRegistry registry && isValidNamespace ns && isValidProvider provider &&
      isValidVersion version && isValidOS osName && isValidArch arch) = true)
    (hsha : shasum ≠ "")
    (hmatch : sha256hex body = shasum) :
    ((binaryGetModel s registry ns provider version osName arch body shasum).2.metrics.hits =
      s.metrics.hits + 1) ∧
    ((binaryGetModel s registry ns provider version osName arch body shasum).2.metrics.misses =
      s.metrics.misses +
        (if statExists s.files (resolvePath s.baseDir
            (getCacheKey registry ns provider version osName arch)) = true then 0 else 1)) ∧
    (∀ (t : LocalStorage) (q : String),
      (deleteByPrefixLocal t q).2.metrics.deletions =
        t.metrics.deletions +
          (if (fileAt t.files (resolvePath t.baseDir q)).isSome = true then 0
           else (deleteByPrefixLocal t q).1)) ∧
    (∀ (u : S3Storage) (q : String),
      (deleteByPrefixS3 u q).2.metrics.deletions =
        u.metrics.deletions + (deleteByPrefixS3 u q).1) := by
  refine ⟨?_, ?_, ?_, ?_⟩
  · cases hex : statExists s.files (resolvePath s.baseDir
        (getCacheKey registry ns provider version osName arch)) with
    | true =>
        simp [binaryGetModel, hvalid, localGet, hex, recordHit, updateSize]
    | false =>
        have hfa : fileAt s.files (resolvePath s.baseDir
            (getCacheKey registry ns provider version osName arch)) = none :=
          statExists_false_fileAt hex
        have happ : statExists
            (s.files ++ [(resolvePath s.baseDir
              (getCacheKey registry ns provider version osName arch), body)])
            (resolvePath s.baseDir
              (getCacheKey registry ns provider version osName arch)) = true :=
          statExists_append_self hfa
        have hbeq : (shasum != "" && sha256hex body != shasum) = false := by
          rw [hmatch]
          simp
        simp [binaryGetModel, hvalid, localGet, localPut, downloadFileModel, hex, hsha,
          hbeq, happ, recordHit, recordMiss, updateSize]
  · cases hex : statExists s.files (resolvePath s.baseDir
        (getCacheKey registry ns provider version osName arch)) with
    | true =>
        simp [binaryGetModel, hvalid, localGet, hex, recordHit, updateSize]
    | false =>
        have hfa : fileAt s.files (resolvePath s.baseDir
            (getCacheKey registry ns provider version osName arch)) = none :=
          statExists_false_fileAt hex
        have happ : statExists
            (s.files ++ [(resolvePath s.baseDir
              (getCacheKey registry ns provider version osName arch), body)])
            (resolvePath s.baseDir
              (getCacheKey registry ns provider version osName arch)) = true :=
          statExists_append_self hfa
        have hbeq : (shasum != "" && sha256hex body != shasum) = false := by
          rw [hmatch]
          simp
        simp [binaryGetModel, hvalid, localGet, localPut, downloadFileModel, hex, hsha,
          hbeq, happ, recordHit, recordMiss, updateSize]
  · intro t q
    cases hfa : fileAt t.files (resolvePath t.baseDir q) with
    | some c =>
        rw [deleteByPrefixLocal_file t q hfa]
        simp [updateSize]
    | none =>
        cases hdir : isDirAt t.files (resolvePath t.baseDir q) with
        | true =>
            rw [deleteByPrefixLocal_dir t q hfa hdir]
            simp [recordDeletion, updateSize]
        | false =>
            rw [deleteByPrefixLocal_missing t q hfa hdir]
            simp
  · intro u q
    unfold deleteByPrefixS3
    cases hobj : (u.bucket.filter (fun e => strStartsWith e.1 q)).isEmpty with
    | true =>
        simp only [hobj, if_true]
        simp
    | false =>
        simp only [hobj, Bool.false_eq_true, if_false]
        unfold recordDeletion
        split <;> rfl

/-- Witness for the C8 amendment at a concrete input: a non-empty store
holding the requested archive (the hit case) with valid identifiers and
a matching digest. -/
theorem c8_metric_accounting_amended_witness :
    ((isValidRegistry "registry.terraform.io" && isValidNamespace "hashicorp" &&
        isValidProvider "random" && isValidVersion "3.7.2" && isValidOS "linux" &&
        isValidArch "amd64") = true ∧
      ("ba7816bf8f01cfea414140de5dae2223b00361a396177a9cb410ff61f20015ad" : String) ≠ "" ∧
      sha256hex [97, 98, 99] =
        "ba7816bf8f01cfea414140de5dae2223b00361a396177a9cb410ff61f20015ad") ∧
    (((binaryGetModel ⟨["cache"], [], Metrics.init⟩ "registry.terraform.io" "hashicorp"
        "random" "3.7.2" "linux" "amd64" [97, 98, 99]
        "ba7816bf8f01cfea414140de5dae2223b00361a396177a9cb410ff61f20015ad").2.metrics.hits =
        Metrics.init.hits + 1) ∧
      ((binaryGetModel ⟨["cache"], [], Metrics.init⟩ "registry.terraform.io" "hashicorp"
        "random" "3.7.2" "linux" "amd64" [97, 98, 99]
        "ba7816bf8f01cfea414140de5dae2223b00361a396177a9cb410ff61f20015ad").2.metrics.misses =
        Metrics.init.misses +
          (if statExists ([] : List (Path × List Nat)) (resolvePath ["cache"]
              (getCacheKey "registry.terraform.io" "hashicorp" "random" "3.7.2" "linux"
                "amd64")) = true then 0 else 1)) ∧
      (∀ (t : LocalStorage) (q : String),
        (deleteByPrefixLocal t q).2.metrics.deletions =
          t.metrics.deletions +
            (if (fileAt t.files (resolvePath t.baseDir q)).isSome = true then 0
             else (deleteByPrefixLocal t q).1)) ∧
      (∀ (u : S3Storage) (q : String),
        (deleteByPrefixS3 u q).2.metrics.deletions =
          u.metrics.deletions + (deleteByPrefixS3 u q).1)) :=
  ⟨⟨by decide, by decide, by decide⟩,
   c8_metric_accounting_amended ⟨["cache"], [], Metrics.init⟩ "registry.terraform.io"
     "hashicorp" "random" "3.7.2" "linux" "amd64" [97, 98, 99]
     "ba7816bf8f01cfea414140de5dae2223b00361a396177a9cb410ff61f20015ad"
     (by decide) (by decide) (by decide)⟩

theorem sumBytes_cons (e : Path × List Nat) (fs : List (Path × List Nat)) :
    sumBytes (e :: fs) = e.2.length + sumBytes fs := by
  simp [sumBytes]

theorem sumBytes_filter_split (fs : List (Path × List Nat)) (q : Path × List Nat → Bool) :
    sumBytes (fs.filter q) + sumBytes (fs.filter (fun e => !q e)) = sumBytes fs := by
  induction fs with
  | nil => rfl
  | cons hd tl ih =>
      cases hq : q hd with
      | true =>
          simp only [List.filter_cons, hq, if_true, Bool.not_true, Bool.false_eq_true,
            if_false, sumBytes_cons]
          omega
      | false =>
          simp only [List.filter_cons, hq, Bool.false_eq_true, if_false, Bool.not_false,
            if_true, sumBytes_cons]
          omega

theorem wf_filter_key {fs : List (Path × List Nat)} (hwf : wellFormedFs fs)
    {p : Path} {c : List Nat} (hf : (p, c) ∈ fs) :
    fs.filter (fun e => e.1 == p) = [(p, c)] := by
  have hwf' : fs.Pairwise (fun a b => ¬ a.1 <+: b.1 ∧ ¬ b.1 <+: a.1) := hwf
  clear hwf
  induction fs with
  | nil => cases hf
  | cons hd tl ih =>
      rcases List.pairwise_cons.mp hwf' with ⟨hhd, htl⟩
      rcases List.mem_cons.mp hf with heq | hmem
      · have hd1 : hd = (p, c) := heq.symm
        have htlnone : ∀ e ∈ tl, ¬ e.1 = p := by
          intro e he hep
          refine (hhd e he).1 ?_
          rw [hd1, hep]
        have hfil : tl.filter (fun e => e.1 == p) = [] :=
          List.filter_eq_nil_iff.mpr (fun e he => by simp [htlnone e he])
        simp [List.filter_cons, hd1, hfil]
      · have hd1 : ¬ hd.1 = p := by
          intro hcon
          exact (hhd (p, c) hmem).1 (by rw [hcon])
        simp only [List.filter_cons]
        have : (hd.1 == p) = false := by simp [hd1]
        rw [this]
        simp only [Bool.false_eq_true, if_false]
        exact ih hmem htl

theorem wf_pref_eq_key {fs : List (Path × List Nat)} (hwf : wellFormedFs fs)
    {p : Path} {c : List Nat} (hmem : (p, c) ∈ fs) :
    ∀ e ∈ fs, (p.isPrefixOf e.1) = (e.1 == p) := by
  intro e he
  by_cases he1 : e.1 = p
  · rw [he1, isPrefixOf_eq_true_of_pref List.prefix_rfl]
    simp
  · have hnp : ¬ p <+: e.1 := fun hcon => he1 (wf_prefix_eq hwf hmem e he hcon)
    rw [isPrefixOf_eq_false_of_pref hnp]
    simp [he1]

theorem wf_bne_eq_not_pref {fs : List (Path × List Nat)} (hwf : wellFormedFs fs)
    {p : Path} {c : List Nat} (hmem : (p, c) ∈ fs) :
    ∀ e ∈ fs, (e.1 != p) = !(p.isPrefixOf e.1) := by
  intro e he
  rw [wf_pref_eq_key hwf hmem e he]
  rfl

theorem nopref_of_missing {fs : List (Path × List Nat)} {p : Path}
    (hfa : fileAt fs p = none) (hdir : isDirAt fs p = false) :
    ∀ e ∈ fs, (p.isPrefixOf e.1) = false := by
  intro e he
  have hnone := fileAt_none_iff.mp hfa
  cases hres : (p.isPrefixOf e.1) with
  | false => rfl
  | true =>
      have : isDirAt fs p = true := by
        unfold isDirAt
        rw [List.any_eq_true]
        refine ⟨e, he, ?_⟩
        simp only [Bool.and_eq_true, bne_iff_ne, ne_eq]
        exact ⟨hres, fun h => hnone e he h.symm⟩
      rw [hdir] at this
      cases this

theorem pref_and_ne_eq_pref {fs : List (Path × List Nat)} {p : Path}
    (hnone : ∀ e ∈ fs, e.1 ≠ p) :
    ∀ e ∈ fs, (p.isPrefixOf e.1 && p != e.1) = (p.isPrefixOf e.1) := by
  intro e he
  have hne : (p != e.1) = true := by
    simp only [bne_iff_ne, ne_eq]
    exact fun h => hnone e he h.symm
  simp [hne]

/-- Claim C9 as amended: `UpdateSize(d)` SETS the `cache_size_bytes`
gauge to `d` (leaving the counters alone) rather than adding `d`;
consequently a local `DeleteByPrefix` that removes entries totalling
`B` bytes leaves the gauge reading exactly `-B` (and an empty deletion
leaves it untouched), where `B` is certified as the bytes that actually
left the store. -/
theorem c9_update_size_amended (s : LocalStorage) (pfx : String)
    (hwf : wellFormedFs s.files) :
    (∀ (m : Metrics) (d : Int),
      (updateSize m d).sizeBytes = d ∧ (updateSize m d).hits = m.hits ∧
        (updateSize m d).misses = m.misses ∧ (updateSize m d).deletions = m.deletions) ∧
    (sumBytes (deleteByPrefixLocal s pfx).2.files +
        sumBytes (s.files.filter
          (fun e => (resolvePath s.baseDir pfx).isPrefixOf e.1)) =
      sumBytes s.files) ∧
    ((deleteByPrefixLocal s pfx).2.metrics.sizeBytes =
      if (deleteByPrefixLocal s pfx).1 = 0 then s.metrics.sizeBytes
      else -(Int.ofNat (sumBytes (s.files.filter
        (fun e => (resolvePath s.baseDir pfx).isPrefixOf e.1))))) := by
  refine ⟨fun m d => ⟨rfl, rfl, rfl, rfl⟩, ?_⟩
  cases hfa : fileAt s.files (resolvePath s.baseDir pfx) with
  | some c =>
      have hmem := fileAt_mem hfa
      have hd := deleteByPrefixLocal_file s pfx hfa
      have hfil : s.files.filter
          (fun e => (resolvePath s.baseDir pfx).isPrefixOf e.1) =
          [(resolvePath s.baseDir pfx, c)] := by
        rw [List.filter_congr (wf_pref_eq_key hwf hmem)]
        exact wf_filter_key hwf hmem
      have hkept : s.files.filter (fun e => e.1 != resolvePath s.baseDir pfx) =
          s.files.filter (fun e => !((resolvePath s.baseDir pfx).isPrefixOf e.1)) :=
        List.filter_congr (wf_bne_eq_not_pref hwf hmem)
      have hsplit := sumBytes_filter_split s.files
        (fun e => (resolvePath s.baseDir pfx).isPrefixOf e.1)
      constructor
      · simp only [hd, hkept, hfil]
        rw [hfil] at hsplit
        omega
      · simp only [hd, hfil]
        simp [updateSize, sumBytes]
  | none =>
      cases hdir : isDirAt s.files (resolvePath s.baseDir pfx) with
      | true =>
          have hnone := fileAt_none_iff.mp hfa
          have hd := deleteByPrefixLocal_dir s pfx hfa hdir
          have hcongr : s.files.filter
              (fun e => (resolvePath s.baseDir pfx).isPrefixOf e.1 &&
                resolvePath s.baseDir pfx != e.1) =
              s.files.filter (fun e => (resolvePath s.baseDir pfx).isPrefixOf e.1) :=
            List.filter_congr (pref_and_ne_eq_pref hnone)
          have hpointNeg : ∀ e ∈ s.files,
              (!((resolvePath s.baseDir pfx).isPrefixOf e.1 &&
                resolvePath s.baseDir pfx != e.1)) =
              (!((resolvePath s.baseDir pfx).isPrefixOf e.1)) := by
            intro e he
            rw [pref_and_ne_eq_pref hnone e he]
          have hcongrNeg := List.filter_congr hpointNeg
          have hany : s.files.any (fun e =>
              (resolvePath s.baseDir pfx).isPrefixOf e.1 &&
                resolvePath s.baseDir pfx != e.1) = true := hdir
          have hne0 : (s.files.filter
              (fun e => (resolvePath s.baseDir pfx).isPrefixOf e.1 &&
                resolvePath s.baseDir pfx != e.1)).length ≠ 0 := by
            rcases List.any_eq_true.mp hany with ⟨e, he, hcond⟩
            have hmem : e ∈ s.files.filter
                (fun e => (resolvePath s.baseDir pfx).isPrefixOf e.1 &&
                  resolvePath s.baseDir pfx != e.1) :=
              List.mem_filter.mpr ⟨he, hcond⟩
            intro hlen
            rw [List.length_eq_zero] at hlen
            rw [hlen] at hmem
            cases hmem
          have hsplit := sumBytes_filter_split s.files
            (fun e => (resolvePath s.baseDir pfx).isPrefixOf e.1)
          constructor
          · simp only [hd, hcongrNeg]
            omega
          · simp only [hd]
            rw [if_neg hne0]
            simp only [recordDeletion, updateSize]
            rw [hcongr]
            rfl
      | false =>
          have hd := deleteByPrefixLocal_missing s pfx hfa hdir
          have hnp := nopref_of_missing hfa hdir
          have hfil : s.files.filter
              (fun e => (resolvePath s.baseDir pfx).isPrefixOf e.1) = [] :=
            List.filter_eq_nil_iff.mpr (fun e he => by simp [hnp e he])
          constructor
          · simp only [hd, hfil]
            simp [sumBytes]
          · simp only [hd, hfil]
            simp

/-- Witness for the C9 amendment at a concrete store: two files under
directory `R`, a non-zero gauge, and `DeleteByPrefix("R")`. -/
theorem c9_update_size_amended_witness :
    wellFormedFs [((["c", "R", "a.zip"] : Path), ([1, 2] : List Nat)),
      (["c", "R", "b.zip"], [3])] ∧
    ((∀ (m : Metrics) (d : Int),
        (updateSize m d).sizeBytes = d ∧ (updateSize m d).hits = m.hits ∧
          (updateSize m d).misses = m.misses ∧ (updateSize m d).deletions = m.deletions) ∧
      (sumBytes (deleteByPrefixLocal
          ⟨["c"], [(["c", "R", "a.zip"], [1, 2]), (["c", "R", "b.zip"], [3])],
           ⟨1, 2, 3, 50⟩⟩ "R").2.files +
          sumBytes ([(["c", "R", "a.zip"], [1, 2]), (["c", "R", "b.zip"], [3])].filter
            (fun e => (resolvePath ["c"] "R").isPrefixOf e.1)) =
        sumBytes [((["c", "R", "a.zip"] : Path), ([1, 2] : List Nat)),
          (["c", "R", "b.zip"], [3])]) ∧
      ((deleteByPrefixLocal
          ⟨["c"], [(["c", "R", "a.zip"], [1, 2]), (["c", "R", "b.zip"], [3])],
           ⟨1, 2, 3, 50⟩⟩ "R").2.metrics.sizeBytes =
        if (deleteByPrefixLocal
            ⟨["c"], [(["c", "R", "a.zip"], [1, 2]), (["c", "R", "b.zip"], [3])],
             ⟨1, 2, 3, 50⟩⟩ "R").1 = 0 then (⟨1, 2, 3, 50⟩ : Metrics).sizeBytes
        else -(Int.ofNat (sumBytes
          ([(["c", "R", "a.zip"], [1, 2]), (["c", "R", "b.zip"], [3])].filter
            (fun e => (resolvePath ["c"] "R").isPrefixOf e.1)))))) :=
  ⟨by decide,
   c9_update_size_amended
     ⟨["c"], [(["c", "R", "a.zip"], [1, 2]), (["c", "R", "b.zip"], [3])], ⟨1, 2, 3, 50⟩⟩
     "R" (by decide)⟩

/-- Claim C10: a DELETE with five path segments is routed to
`DeleteCache`, which appends the file segment to the prefix; in the
local store the resulting single-file branch removes exactly that one
archive, the response reports `deleted = 1`, and `cache_deletions_total`
is not incremented. -/
theorem c10_single_file_delete
    (s : LocalStorage) (registry ns provider version file : String) (content : List Nat)
    (hns : ns ≠ "") (hpv : provider ≠ "") (hvv : version ≠ "") (hfv : file ≠ "")
    (hsplit : splitOnChar '/' (deleteCachePrefixString registry ns provider version file) =
      [registry, ns, provider, version, file])
    (hroot : ∀ seg ∈ s.baseDir, normalSeg seg = true)
    (hsegs : ∀ seg ∈ [registry, ns, provider, version, file], normalSeg seg = true)
    (hwf : wellFormedFs s.files)
    (hfile : fileAt s.files (s.baseDir ++ [registry, ns, provider, version, file]) =
      some content) :
    deleteCacheParams registry ns provider version file =
      [registry, ns, provider, version, file] ∧
    (deleteCacheModel s registry ns provider version file).1 = 1 ∧
    (deleteCacheModel s registry ns provider version file).2.files =
      s.files.filter
        (fun e => !((s.baseDir ++ [registry, ns, provider, version, file]).isPrefixOf e.1)) ∧
    s.files.filter
        (fun e => (s.baseDir ++ [registry, ns, provider, version, file]).isPrefixOf e.1) =
      [(s.baseDir ++ [registry, ns, provider, version, file], content)] ∧
    (deleteCacheModel s registry ns provider version file).2.metrics.deletions =
      s.metrics.deletions := by
  have hparams : deleteCacheParams registry ns provider version file =
      [registry, ns, provider, version, file] := by
    simp [deleteCacheParams, hns, hpv, hvv, hfv]
  have hres : resolvePath s.baseDir
      (deleteCachePrefixString registry ns provider version file) =
      s.baseDir ++ [registry, ns, provider, version, file] := by
    unfold resolvePath
    rw [hsplit]
    apply cleanAbs_of_normal
    intro seg hseg
    rcases List.mem_append.mp hseg with h | h
    · exact hroot seg h
    · exact hsegs seg h
  have hfa : fileAt s.files (resolvePath s.baseDir
      (deleteCachePrefixString registry ns provider version file)) = some content := by
    rw [hres]
    exact hfile
  have hmem := fileAt_mem hfile
  have hd := deleteByPrefixLocal_file s _ hfa
  refine ⟨hparams, ?_, ?_, ?_, ?_⟩
  · unfold deleteCacheModel
    simp only [hd]
  · unfold deleteCacheModel
    simp only [hd]
    rw [show (fun e : Path × List Nat => e.1 != resolvePath s.baseDir
        (deleteCachePrefixString registry ns provider version file)) =
        (fun e : Path × List Nat => e.1 !=
          (s.baseDir ++ [registry, ns, provider, version, file])) from by rw [hres]]
    exact List.filter_congr (wf_bne_eq_not_pref hwf hmem)
  · rw [List.filter_congr (wf_pref_eq_key hwf hmem)]
    exact wf_filter_key hwf hmem
  · unfold deleteCacheModel
    simp only [hd]
    rfl

/-- Witness for C10 at the concrete five-segment DELETE of the scenario
archive, present in the store. -/
theorem c10_single_file_delete_witness :
    (("hashicorp" : String) ≠ "" ∧ ("random" : String) ≠ "" ∧ ("3.7.2" : String) ≠ "" ∧
      ("terraform-provider-random_3.7.2_linux_amd64.zip" : String) ≠ "" ∧
      splitOnChar '/' (deleteCachePrefixString "registry.terraform.io" "hashicorp" "random"
        "3.7.2" "terraform-provider-random_3.7.2_linux_amd64.zip") =
        ["registry.terraform.io", "hashicorp", "random", "3.7.2",
         "terraform-provider-random_3.7.2_linux_amd64.zip"] ∧
      (∀ seg ∈ (["cache"] : Path), normalSeg seg = true) ∧
      (∀ seg ∈ ["registry.terraform.io", "hashicorp", "random", "3.7.2",
        "terraform-provider-random_3.7.2_linux_amd64.zip"], normalSeg seg = true) ∧
      wellFormedFs [((["cache", "registry.terraform.io", "hashicorp", "random", "3.7.2",
        "terraform-provider-random_3.7.2_linux_amd64.zip"] : Path), ([0, 1] : List Nat))] ∧
      fileAt [((["cache", "registry.terraform.io", "hashicorp", "random", "3.7.2",
          "terraform-provider-random_3.7.2_linux_amd64.zip"] : Path), ([0, 1] : List Nat))]
        (["cache"] ++ ["registry.terraform.io", "hashicorp", "random", "3.7.2",
          "terraform-provider-random_3.7.2_linux_amd64.zip"]) = some [0, 1]) ∧
    (deleteCacheParams "registry.terraform.io" "hashicorp" "random" "3.7.2"
        "terraform-provider-random_3.7.2_linux_amd64.zip" =
      ["registry.terraform.io", "hashicorp", "random", "3.7.2",
       "terraform-provider-random_3.7.2_linux_amd64.zip"] ∧
      (deleteCacheModel
        ⟨["cache"],
         [(["cache", "registry.terraform.io", "hashicorp", "random", "3.7.2",
            "terraform-provider-random_3.7.2_linux_amd64.zip"], [0, 1])],
         ⟨0, 0, 7, 0⟩⟩ "registry.terraform.io" "hashicorp" "random" "3.7.2"
        "terraform-provider-random_3.7.2_linux_amd64.zip").1 = 1 ∧
      (deleteCacheModel
        ⟨["cache"],
         [(["cache", "registry.terraform.io", "hashicorp", "random", "3.7.2",
            "terraform-provider-random_3.7.2_linux_amd64.zip"], [0, 1])],
         ⟨0, 0, 7, 0⟩⟩ "registry.terraform.io" "hashicorp" "random" "3.7.2"
        "terraform-provider-random_3.7.2_linux_amd64.zip").2.files =
        [((["cache", "registry.terraform.io", "hashicorp", "random", "3.7.2",
            "terraform-provider-random_3.7.2_linux_amd64.zip"] : Path),
          ([0, 1] : List Nat))].filter
          (fun e => !((["cache"] ++ ["registry.terraform.io", "hashicorp", "random", "3.7.2",
            "terraform-provider-random_3.7.2_linux_amd64.zip"]).isPrefixOf e.1)) ∧
      [((["cache", "registry.terraform.io", "hashicorp", "random", "3.7.2",
          "terraform-provider-random_3.7.2_linux_amd64.zip"] : Path),
        ([0, 1] : List Nat))].filter
          (fun e => ((["cache"] ++ ["registry.terraform.io", "hashicorp", "random", "3.7.2",
            "terraform-provider-random_3.7.2_linux_amd64.zip"]).isPrefixOf e.1)) =
        [(["cache"] ++ ["registry.terraform.io", "hashicorp", "random", "3.7.2",
          "terraform-provider-random_3.7.2_linux_amd64.zip"], [0, 1])] ∧
      (deleteCacheModel
        ⟨["cache"],
         [(["cache", "registry.terraform.io", "hashicorp", "random", "3.7.2",
            "terraform-provider-random_3.7.2_linux_amd64.zip"], [0, 1])],
         ⟨0, 0, 7, 0⟩⟩ "registry.terraform.io" "hashicorp" "random" "3.7.2"
        "terraform-provider-random_3.7.2_linux_amd64.zip").2.metrics.deletions =
        (⟨0, 0, 7, 0⟩ : Metrics).deletions) :=
  ⟨⟨by decide, by decide, by decide, by decide, by decide, by decide, by decide, by decide,
    by decide⟩,
   c10_single_file_delete
     ⟨["cache"],
      [(["cache", "registry.terraform.io", "hashicorp", "random", "3.7.2",
         "terraform-provider-random_3.7.2_linux_amd64.zip"], [0, 1])],
      ⟨0, 0, 7, 0⟩⟩ "registry.terraform.io" "hashicorp" "random" "3.7.2"
     "terraform-provider-random_3.7.2_linux_amd64.zip" [0, 1]
     (by decide) (by decide) (by decide) (by decide) (by decide) (by decide) (by decide)
     (by decide) (by decide)⟩

/-- Witness for the C5 amendment at a concrete store: one archive under
provider directory `other`, deleted with the string-sibling prefix
`R/N/oth`, plus the corresponding S3 bucket. -/
theorem c5_delete_by_prefix_amended_witness :
    ((∀ seg ∈ (["cache"] : Path), normalSeg seg = true) ∧
      (∀ seg ∈ splitOnChar '/' "R/N/oth", normalSeg seg = true) ∧
      wellFormedFs [((["cache", "R", "N", "other", "f.zip"] : Path), ([1] : List Nat))]) ∧
    (((deleteByPrefixLocal
        ⟨["cache"], [(["cache", "R", "N", "other", "f.zip"], [1])], Metrics.init⟩
        "R/N/oth").2.files =
        [((["cache", "R", "N", "other", "f.zip"] : Path), ([1] : List Nat))].filter
          (fun e => !((["cache"] ++ splitOnChar '/' "R/N/oth").isPrefixOf e.1)) ∧
      (deleteByPrefixLocal
        ⟨["cache"], [(["cache", "R", "N", "other", "f.zip"], [1])], Metrics.init⟩
        "R/N/oth").1 =
        ([((["cache", "R", "N", "other", "f.zip"] : Path), ([1] : List Nat))].filter
          (fun e => (["cache"] ++ splitOnChar '/' "R/N/oth").isPrefixOf e.1)).length ∧
      (∀ ks : Path, ((["cache"] ++ splitOnChar '/' "R/N/oth").isPrefixOf (["cache"] ++ ks)) =
        ((splitOnChar '/' "R/N/oth").isPrefixOf ks))) ∧
    ((deleteByPrefixS3 ⟨[("R/N/other/f.zip", 3)], Metrics.init⟩ "R/N/oth").2.bucket =
        [(("R/N/other/f.zip" : String), (3 : Nat))].filter
          (fun e => !strStartsWith e.1 "R/N/oth") ∧
      (deleteByPrefixS3 ⟨[("R/N/other/f.zip", 3)], Metrics.init⟩ "R/N/oth").1 =
        ([(("R/N/other/f.zip" : String), (3 : Nat))].filter
          (fun e => strStartsWith e.1 "R/N/oth")).length)) :=
  ⟨⟨by decide, by decide, by decide⟩,
   c5_delete_by_prefix_amended
     ⟨["cache"], [(["cache", "R", "N", "other", "f.zip"], [1])], Metrics.init⟩ "R/N/oth"
     ⟨[("R/N/other/f.zip", 3)], Metrics.init⟩ (by decide) (by decide) (by decide)⟩

end Cachetf
